import Mathlib

/-!
# Verification of the YARA language server core (yarals)

Shallow embedding of `src/yarals/yarals.py`, `src/yarals/base/server.py` and
`src/yarals/base/protocol.py`.  Python strings are modelled as lists of
Unicode code points (`List Nat`), byte streams as lists of bytes
(`List Nat`, each `< 256`), JSON values as the inductive `Json`, and Python
exceptions as explicit `Except` results.  Helper functions that live in
`yarals/helpers.py` (absent from the source tree; only its callers and tests
are present) are modelled from the specification and marked as such.
-/

namespace YaraLS

/-- Code points of a Lean string literal; used to transcribe the Python
string literals appearing in the source. -/
def cps (s : String) : List Nat := s.toList.map Char.toNat

/-- JSON values as produced by Python `json.loads` (numbers restricted to
integers; object fields keep insertion order like Python dicts). -/
inductive Json where
  | null : Json
  | bool (b : Bool) : Json
  | num (n : Int) : Json
  | str (s : List Nat) : Json
  | arr (elems : List Json) : Json
  | obj (fields : List (List Nat × Json)) : Json
deriving Repr

mutual

/-- Structural equality test on JSON values (Python `==` on parsed JSON). -/
def beqJson : Json → Json → Bool
  | .null, .null => true
  | .bool a, .bool b => a == b
  | .num a, .num b => a == b
  | .str a, .str b => a == b
  | .arr a, .arr b => beqJsonList a b
  | .obj a, .obj b => beqJsonFields a b
  | _, _ => false

def beqJsonList : List Json → List Json → Bool
  | [], [] => true
  | x :: xs, y :: ys => beqJson x y && beqJsonList xs ys
  | _, _ => false

def beqJsonFields : List (List Nat × Json) → List (List Nat × Json) → Bool
  | [], [] => true
  | (k, v) :: xs, (k', v') :: ys => k == k' && beqJson v v' && beqJsonFields xs ys
  | _, _ => false

end

/-- Python exceptions that the embedded code can raise. -/
inductive PyErr where
  | typeError : PyErr
  | valueError : PyErr
  | attributeError : PyErr
  | indexError : PyErr
  | osError : PyErr
deriving DecidableEq, Repr

/-- Provider-specific exceptions from `yarals/base/errors.py`, plus a plain
Python exception for errors escaping any provider wrapper. -/
inductive SrvErr where
  | codeCompletionError : SrvErr
  | definitionError : SrvErr
  | hoverError : SrvErr
  | highlightError : SrvErr
  | renameError : SrvErr
  | symbolReferenceError : SrvErr
  | py (e : PyErr) : SrvErr
deriving DecidableEq, Repr

/-- Truthiness of a Python value (`if x:`). -/
def truthy : Json → Bool
  | .null => false
  | .bool b => b
  | .num n => n != 0
  | .str s => !s.isEmpty
  | .arr l => !l.isEmpty
  | .obj l => !l.isEmpty

/-- First value bound to `key` in a field list (Python dicts have unique
keys, so this is the dict lookup). -/
def fieldGet (fields : List (List Nat × Json)) (key : List Nat) : Option Json :=
  match fields with
  | [] => none
  | (k, v) :: rest => if k = key then some v else fieldGet rest key

/-- Python `value.get(key, default)`: `AttributeError` when `value` is not a
dict. -/
def pyGetD (j : Json) (key : List Nat) (dflt : Json) : Except PyErr Json :=
  match j with
  | .obj fields => .ok ((fieldGet fields key).getD dflt)
  | _ => .error .attributeError

/-- Python dicts with arbitrary (hashable) keys, as used for the
per-connection `dirty_files` table.  Keys are JSON values; insertion order
is preserved and assignment to an existing key keeps its position. -/
abbrev PyDict := List (Json × Json)

/-- `key in dict`. -/
def dictContains (d : PyDict) (k : Json) : Bool :=
  d.any (fun e => beqJson e.1 k)

/-- `dict[key]` as an `Option`. -/
def dictGet (d : PyDict) (k : Json) : Option Json :=
  (d.find? (fun e => beqJson e.1 k)).map (·.2)

/-- `dict[key] = value`. -/
def dictSet (d : PyDict) (k v : Json) : PyDict :=
  match d with
  | [] => [(k, v)]
  | (k', v') :: rest =>
      if beqJson k' k then (k', v) :: rest else (k', v') :: dictSet rest k v

/-- Python `int(str)`: optional surrounding whitespace, optional sign, a
nonempty run of decimal digits (digit-group underscores are not modelled). -/
def pyParseIntStr (s : List Nat) : Option Int :=
  let ws : List Nat := [0x20, 0x09, 0x0A, 0x0D, 0x0B, 0x0C]
  let t := (s.dropWhile (ws.contains ·)).reverse
  let t := (t.dropWhile (ws.contains ·)).reverse
  let digitsVal (ds : List Nat) : Option Nat :=
    if ds = [] ∨ ¬ ds.all (fun c => 0x30 ≤ c ∧ c ≤ 0x39) then none
    else some (ds.foldl (fun a c => a * 10 + (c - 0x30)) 0)
  match t with
  | 0x2D :: rest => (digitsVal rest).map (fun n => -(n : Int))
  | 0x2B :: rest => (digitsVal rest).map (fun n => (n : Int))
  | rest => (digitsVal rest).map (fun n => (n : Int))

/-- Python `int(x)` on a JSON value: `TypeError` for `None`/lists/dicts,
`ValueError` for non-numeric strings. -/
def pyIntOfJson : Json → Except PyErr Int
  | .null => .error .typeError
  | .bool b => .ok (if b then 1 else 0)
  | .num n => .ok n
  | .str s =>
      match pyParseIntStr s with
      | some n => .ok n
      | none => .error .valueError
  | .arr _ => .error .typeError
  | .obj _ => .error .typeError

/- ### Python text primitives on code-point lists -/

/-- `s.split(sep)` for a single-character separator; always nonempty. -/
def splitOnCp (sep : Nat) : List Nat → List (List Nat)
  | [] => [[]]
  | c :: rest =>
      match splitOnCp sep rest with
      | [] => [[c]]
      | l :: ls => if c = sep then [] :: l :: ls else (c :: l) :: ls

/-- `document.split("\n")`. -/
def splitLines (s : List Nat) : List (List Nat) := splitOnCp 0x0A s

/-- `xs[a:b]` for nonnegative bounds. -/
def pySlice (l : List (List Nat)) (a b : Nat) : List (List Nat) :=
  (l.take b).drop a

/-- `sub in s` (substring containment). -/
def containsSub (s sub : List Nat) : Bool :=
  sub.isPrefixOf s ||
    match s with
    | [] => false
    | _ :: t => containsSub t sub

/-- `s.endswith(c)` for a one-character suffix. -/
def endsWithCp (s : List Nat) (c : Nat) : Bool :=
  s.getLast? = some c

/-- `s.replace("*", ".*?")` as done for wildcard symbols. -/
def replaceStar (s : List Nat) : List Nat :=
  s.flatMap (fun c => if c = 0x2A then [0x2E, 0x2A, 0x3F] else [c])

/-- `s.strip("()")`. -/
def stripParens (s : List Nat) : List Nat :=
  let p := fun (c : Nat) => c = 0x28 || c = 0x29
  ((s.dropWhile p).reverse.dropWhile p).reverse

/-- Python `str.strip()` whitespace set (ASCII part). -/
def isWspCp (c : Nat) : Bool :=
  c = 0x20 || c = 0x09 || c = 0x0A || c = 0x0D || c = 0x0B || c = 0x0C

/-- `s.strip()`. -/
def pyStrip (s : List Nat) : List Nat :=
  ((s.dropWhile isWspCp).reverse.dropWhile isWspCp).reverse

/- ### The regular-expression subset built by the providers

The providers build patterns from the literal fragments `\$`, `\b`, `\s`,
`rule `, `[$#@!]` and a resolved symbol whose characters are identifier
characters, `.`, `*` (turned into `.*?`) and sigils.  The engine below
implements exactly the constructs expressible that way, with Python `re`
semantics (leftmost match, greedy/non-greedy stars, ASCII word
characters). -/

/-- `re` word character (`\w`), ASCII fragment. -/
def isWordCp (c : Nat) : Bool :=
  (0x41 ≤ c && c ≤ 0x5A) || (0x61 ≤ c && c ≤ 0x7A) ||
  (0x30 ≤ c && c ≤ 0x39) || c = 0x5F

/-- Tokens of the compiled pattern. -/
inductive RTok where
  | lit (c : Nat) : RTok
  | cls (cs : List Nat) : RTok
  | anyc : RTok
  | wsp : RTok
  | wordB : RTok
  | gStar (t : RTok) : RTok
  | ngStar (t : RTok) : RTok
deriving Repr, DecidableEq

/-- Whether a token consumes exactly one character (and so may be
starred). -/
def singleTok : RTok → Bool
  | .lit _ => true
  | .cls _ => true
  | .anyc => true
  | .wsp => true
  | _ => false

/-- Single-character token match. -/
def tokMatches : RTok → Nat → Bool
  | .lit c, x => x == c
  | .cls cs, x => cs.contains x
  | .anyc, x => x != 0x0A
  | .wsp, x => isWspCp x
  | _, _ => false

/-- Compile a pattern string into tokens; `none` models `re.error`.  `acc`
holds compiled tokens in reverse; `inCls` holds the characters collected so
far inside a `[...]` class (no ranges or negation occur in the source
patterns). -/
def compileReAux : Nat → List RTok → Option (List Nat) →
    List Nat → Option (List RTok)
  | 0, _, _, _ => none
  | _ + 1, acc, inCls, [] =>
      match inCls with
      | some _ => none
      | none => some acc.reverse
  | fuel + 1, acc, inCls, c :: rest =>
      match inCls with
      | some collected =>
          if c = 0x5D then compileReAux fuel (.cls collected.reverse :: acc) none rest
          else compileReAux fuel acc (some (c :: collected)) rest
      | none =>
          if c = 0x5C then
            match rest with
            | c2 :: rest' =>
                if c2 = 0x62 then compileReAux fuel (.wordB :: acc) none rest'
                else if c2 = 0x73 then compileReAux fuel (.wsp :: acc) none rest'
                else if isWordCp c2 then none
                else compileReAux fuel (.lit c2 :: acc) none rest'
            | [] => none
          else if c = 0x5B then compileReAux fuel acc (some []) rest
          else if c = 0x2A then
            match acc with
            | t :: acc' =>
                if singleTok t then
                  if rest.head? = some 0x3F then
                    compileReAux fuel (.ngStar t :: acc') none rest.tail
                  else compileReAux fuel (.gStar t :: acc') none rest
                else none
            | [] => none
          else if c = 0x2E then compileReAux fuel (.anyc :: acc) none rest
          else if c = 0x3F || c = 0x28 || c = 0x29 then none
          else compileReAux fuel (.lit c :: acc) none rest

/-- Compile a pattern string (`re.compile`); `none` models `re.error`. -/
def compileRe (pattern : List Nat) : Option (List RTok) :=
  compileReAux (pattern.length + 1) [] none pattern

/-- `\b`: exactly one side of position `i` is a word character. -/
def wordBoundary (line : List Nat) (i : Nat) : Bool :=
  let w := fun (j : Nat) =>
    match line.get? j with
    | some c => isWordCp c
    | none => false
  (if i = 0 then false else w (i - 1)) != w i

/-- Length of the maximal run of `t`-matching characters. -/
def starRunAux (t : RTok) : List Nat → Nat
  | [] => 0
  | c :: rest => if tokMatches t c then starRunAux t rest + 1 else 0

/-- Match `toks` against `line` starting at `i`; returns the end index of
the leftmost-preferred match.  `fuel` bounds the token-list recursion. -/
def reMatchFrom (fuel : Nat) (toks : List RTok) (line : List Nat) (i : Nat) : Option Nat :=
  match fuel with
  | 0 => none
  | fuel + 1 =>
    match toks with
    | [] => some i
    | .wordB :: rest =>
        if wordBoundary line i then reMatchFrom fuel rest line i else none
    | .gStar t :: rest =>
        let n := starRunAux t (line.drop i)
        ((List.range (n + 1)).map (fun j => n - j)).findSome?
          (fun j => reMatchFrom fuel rest line (i + j))
    | .ngStar t :: rest =>
        let n := starRunAux t (line.drop i)
        (List.range (n + 1)).findSome?
          (fun j => reMatchFrom fuel rest line (i + j))
    | t :: rest =>
        match line.get? i with
        | some c => if tokMatches t c then reMatchFrom fuel rest line (i + 1) else none
        | none => none

/-- Try a full match of `toks` at position `i`. -/
def reMatch (toks : List RTok) (line : List Nat) (i : Nat) : Option Nat :=
  reMatchFrom (toks.length + 1) toks line i

/-- `re.finditer`: non-overlapping matches, scanning left to right,
advancing by one after an empty match. -/
def findIterFrom (fuel : Nat) (toks : List RTok) (line : List Nat) (i : Nat) :
    List (Nat × Nat) :=
  match fuel with
  | 0 => []
  | fuel + 1 =>
    if i ≤ line.length then
      match reMatch toks line i with
      | some e => (i, e) :: findIterFrom fuel toks line (if i < e then e else i + 1)
      | none => findIterFrom fuel toks line (i + 1)
    else []

/-- All matches of the pattern in one line, as `(start, end)` pairs. -/
def findIter (toks : List RTok) (line : List Nat) : List (Nat × Nat) :=
  findIterFrom (line.length + 2) toks line 0

/- ### LSP value objects (`yarals/base/protocol.py`) -/

/-- `lsp.Position` after its `int()` coercions. -/
structure Pos where
  line : Int
  char : Int
deriving DecidableEq, Repr

/-- `lsp.Range` (`start`/`end`; `end` renamed to avoid the keyword). -/
structure Rng where
  start : Pos
  stop : Pos
deriving DecidableEq, Repr

/-- `lsp.Location`. -/
structure Location where
  range : Rng
  uri : List Nat
deriving DecidableEq, Repr

/-- `lsp.TextEdit` (construction raises `TypeError` unless `newText` is a
string; the embedding checks this at the construction site). -/
structure TextEdit where
  range : Rng
  newText : List Nat
deriving DecidableEq, Repr

/-- `lsp.WorkspaceEdit`. -/
structure WorkspaceEdit where
  uri : Json
  changes : List TextEdit

/-- `lsp.CompletionItem` with its constructor defaults applied
(`insertText`/`detail` default to the label). -/
structure CompletionItem where
  label : List Nat
  kind : Nat
  insertText : List Nat
  detail : List Nat
deriving DecidableEq, Repr

/-- `lsp.Hover` restricted to what the server produces: plaintext markup
content. -/
structure HoverR where
  value : List Nat
deriving DecidableEq, Repr

/- ### Helpers modelled from the spec

`yarals/helpers.py` is imported by the server but absent from the source
tree (only its callers and its tests are present), so the four helpers used
by the providers are modelled from the specification (§4.2, §4.3). -/

/-- Hexadecimal digit value. -/
def hexVal (c : Nat) : Option Nat :=
  if 0x30 ≤ c ∧ c ≤ 0x39 then some (c - 0x30)
  else if 0x41 ≤ c ∧ c ≤ 0x46 then some (c - 0x41 + 10)
  else if 0x61 ≤ c ∧ c ≤ 0x66 then some (c - 0x61 + 10)
  else none

/-- Percent-decoding of a URI path (fuel-bounded; one unit per consumed
byte). -/
def percentDecodeAux : Nat → List Nat → List Nat
  | 0, _ => []
  | _ + 1, [] => []
  | fuel + 1, 0x25 :: h1 :: h2 :: rest =>
      match hexVal h1, hexVal h2 with
      | some a, some b => (a * 16 + b) :: percentDecodeAux fuel rest
      | _, _ => 0x25 :: percentDecodeAux fuel (h1 :: h2 :: rest)
  | fuel + 1, c :: rest => c :: percentDecodeAux fuel rest

/-- Percent-decoding of a URI path. -/
def percentDecode (s : List Nat) : List Nat :=
  percentDecodeAux (s.length + 1) s

/-- Modelled from the spec: `helpers.parse_uri` is absent from the source
tree.  §4.2: URI→path conversion is a lossless percent-encoding transform;
the `file://` scheme prefix is removed and percent-escapes decoded. -/
def parse_uri (uri : List Nat) : List Nat :=
  percentDecode (if (cps "file://").isPrefixOf uri then uri.drop 7 else uri)

/-- Characters a symbol token may contain (identifier characters, the
module-path dot, and the wildcard star). -/
def symbolChar (c : Nat) : Bool :=
  isWordCp c || c = 0x2E || c = 0x2A

/-- The variable sigils `$ # @ !` (class attribute `_varchar`). -/
def varchar : List Nat := [0x24, 0x23, 0x40, 0x21]

/-- Modelled from the spec: `helpers.resolve_symbol` is absent from the
source tree.  §4.3 `resolveSymbol`: scan the line at `pos.line`, extend
left from `pos.char` to the nearest word boundary or sigil and right to the
nearest non-identifier character (a trailing `*` is captured); a `char`
beyond the line length is clamped, an out-of-bounds cursor yields no
symbol, and an empty span yields no symbol. -/
def resolve_symbol (document : List Nat) (pos : Pos) : Option (List Nat) :=
  if pos.line < 0 || pos.char < 0 then none
  else
    match (splitLines document).get? pos.line.toNat with
    | none => none
    | some line =>
        let k := min pos.char.toNat line.length
        let idcount := ((line.take k).reverse.takeWhile symbolChar).length
        let start0 := k - idcount
        let start :=
          if start0 > 0 ∧ (line.get? (start0 - 1)).any (varchar.contains ·) then
            start0 - 1
          else start0
        let stop := k + ((line.drop k).takeWhile symbolChar).length
        let sym := (line.drop start).take (stop - start)
        if sym.isEmpty then none else some sym

/-- A rule-header line (`rule foo {`, possibly `private`/`global`
qualified), after leading whitespace. -/
def isRuleHeader (line : List Nat) : Bool :=
  let l := line.dropWhile isWspCp
  (cps "rule ").isPrefixOf l || (cps "private rule ").isPrefixOf l ||
  (cps "global rule ").isPrefixOf l

/-- Modelled from the spec: `helpers.get_rule_range` is absent from the
source tree.  §4.3 `getRuleScope`: scan backward from `pos` for the nearest
rule header line and forward for the corresponding closing line (the first
subsequent line whose stripped text starts with the closing brace);
returns the pair of line numbers, or `none` when no enclosing block is
found (the original raises, surfaced by each provider's exception
wrapper). -/
def get_rule_range (document : List Nat) (pos : Pos) : Option (Nat × Nat) :=
  if pos.line < 0 then none
  else
    let lines := splitLines document
    let pl := pos.line.toNat
    if lines.length ≤ pl then none
    else
      let isHdrAt := fun (i : Nat) =>
        match lines.get? i with
        | some l => isRuleHeader l
        | none => false
      match ((List.range (pl + 1)).reverse).find? isHdrAt with
      | none => none
      | some s =>
          let isCloseAt := fun (j : Nat) =>
            s ≤ j &&
              match lines.get? j with
              | some l => (l.dropWhile isWspCp).head? = some 0x7D
              | none => false
          match (List.range lines.length).find? isCloseAt with
          | none => none
          | some e => some (s, e)

/- ### Document store (`YaraLanguageServer._get_document`) -/

/-- The on-disk file system: decoded path → file contents. -/
abbrev Fs := List Nat → Option (List Nat)

/-- `_get_document(file_uri, dirty_files)`: overlay if present, else a fresh
read of the file at the path decoded from the URI (`OSError` when the file
does not exist; `parse_uri` is modelled from the spec).  An unhashable URI
(list/dict) raises `TypeError` at the `in` test. -/
def _get_document (file_uri : Json) (dirty_files : PyDict) (fs : Fs) :
    Except PyErr Json :=
  match file_uri with
  | .arr _ => .error .typeError
  | .obj _ => .error .typeError
  | _ =>
    if dictContains dirty_files file_uri then
      .ok ((dictGet dirty_files file_uri).getD Json.null)
    else
      match file_uri with
      | .str u =>
          match fs (parse_uri u) with
          | some text => .ok (.str text)
          | none => .error .osError
      | _ => .error .typeError

/-- Coerce a JSON value that the Python code uses as a `str` (the failure
models the `AttributeError`/`TypeError` raised at its first string
operation). -/
def asStr : Json → Except PyErr (List Nat)
  | .str s => .ok s
  | _ => .error .attributeError

/-- `value[key]` (no default): `KeyError` when absent. -/
def pyIndex (j : Json) (key : List Nat) : Except PyErr Json :=
  match j with
  | .obj fields =>
      match fieldGet fields key with
      | some v => .ok v
      | none => .error .indexError
  | _ => .error .typeError

/-- Decimal digit characters of `n`, least significant first (empty for
zero); `fuel ≥ n` suffices. -/
def natDigitsLE : Nat → Nat → List Nat
  | 0, _ => []
  | _ + 1, 0 => []
  | fuel + 1, n + 1 => ((n + 1) % 10 + 0x30) :: natDigitsLE fuel ((n + 1) / 10)

/-- Decimal rendering of a natural number. -/
def natDecCps (n : Nat) : List Nat :=
  if n = 0 then [0x30] else (natDigitsLE n n).reverse

/-- Decimal rendering of an integer (Python `repr`). -/
def intDecCps (i : Int) : List Nat :=
  if i < 0 then 0x2D :: natDecCps i.natAbs else natDecCps i.toNat

/-- Python `str(x)` for the hashable scalars that can reach
`lsp.Location.__init__` as a URI. -/
def pyStr : Json → List Nat
  | .str s => s
  | .num n => intDecCps n
  | .null => cps "None"
  | .bool b => if b then cps "True" else cps "False"
  | .arr _ => cps "<list>"
  | .obj _ => cps "<dict>"

/- ### `YaraLanguageServer.provide_definition` -/

/-- The shared `for index, line in enumerate(...)` / `re.finditer` loop
that turns matches into `Location`s with the given line offset and start
character offset. -/
def matchLocations (toks : List RTok) (ls : List (List Nat)) (rel off : Nat)
    (uri : List Nat) : List Location :=
  ls.enum.flatMap (fun p =>
    (findIter toks p.2).map (fun m =>
      { range := { start := { line := (rel + p.1 : Int), char := (m.1 + off : Int) },
                   stop := { line := (rel + p.1 : Int), char := (m.2 : Int) } },
        uri := uri }))

/-- The inner `try` block of `provide_definition` (lines 413-442): choose
the declaration pattern and search region from the symbol's first
character, collect every match.  `re.error` yields `[]`; a failing
rule-range lookup propagates as an exception. -/
def definitionCore (document : List Nat) (pos : Pos) (symbol : List Nat)
    (uri : List Nat) : Except PyErr (List Location) :=
  match symbol.head? with
  | none => .error .indexError
  | some c0 =>
    if varchar.contains c0 then
      match get_rule_range document pos with
      | none => .error .valueError
      | some se =>
          let pattern := cps "\\$" ++ symbol.tail ++ cps " =\\s"
          let match_lines := pySlice (splitLines document) se.1 (se.2 + 1)
          match compileRe pattern with
          | none => .ok []
          | some toks => .ok (matchLocations toks match_lines se.1 1 uri)
    else
      let pattern := cps "\\brule " ++ symbol ++ cps "\\b"
      match compileRe pattern with
      | none => .ok []
      | some toks => .ok (matchLocations toks (splitLines document) 0 5 uri)

/-- `provide_definition` before its exception wrapper: parameter
extraction, the `has_started and file_uri` guard, symbol resolution, then
`definitionCore`.  When the guard fails, `symbol` is still `None` and the
inner `try` evaluates `symbol[0]`: `TypeError`. -/
def provide_definition_aux (message : Json) (has_started : Bool)
    (dirty_files : PyDict) (fs : Fs) : Except PyErr (List Location) := do
  let params ← pyGetD message (cps "params") (Json.obj [])
  let td ← pyGetD params (cps "textDocument") (Json.obj [])
  let file_uri ← pyGetD td (cps "uri") Json.null
  if has_started && truthy file_uri then
    let docJ ← _get_document file_uri dirty_files fs
    let document ← asStr docJ
    let posObj ← pyGetD params (cps "position") (Json.obj [])
    let lineJ ← pyGetD posObj (cps "line") Json.null
    let charJ ← pyGetD posObj (cps "character") Json.null
    let line ← pyIntOfJson lineJ
    let char ← pyIntOfJson charJ
    let pos : Pos := ⟨line, char⟩
    match resolve_symbol document pos with
    | none => return []
    | some symbol => definitionCore document pos symbol (pyStr file_uri)
  else
    .error .typeError

/-- `provide_definition`: any exception raised inside becomes a
`DefinitionError` (re-raised to the connection loop, which turns it into a
`window/showMessage` error notification). -/
def provide_definition (message : Json) (has_started : Bool)
    (dirty_files : PyDict) (fs : Fs) : Except SrvErr (List Location) :=
  match provide_definition_aux message has_started dirty_files fs with
  | .ok locs => .ok locs
  | .error _ => .error .definitionError

/- ### `YaraLanguageServer.provide_reference` -/

/-- Lift a Python exception into the provider-error type. -/
def pyE : Except PyErr α → Except SrvErr α
  | .ok a => .ok a
  | .error e => .error (.py e)

/-- `[idx for idx, line in enumerate(lines) if needle in line][0]`. -/
def firstIdxWith (ls : List (List Nat)) (needle : List Nat) : Option Nat :=
  (ls.enum.find? (fun p => containsSub p.2 needle)).map (·.1)

/-- The body of `provide_reference` after symbol resolution (lines
644-682): wildcard rewriting, pattern choice, scope selection, match
collection.  `re.error` yields `[]`; helper failures propagate. -/
def referenceCore (document : List Nat) (pos : Pos) (symbol0 : List Nat)
    (uri : List Nat) : Except PyErr (List Location) :=
  let wildcard_found := symbol0.contains 0x2A
  let symbol := if wildcard_found then stripParens (replaceStar symbol0) else symbol0
  match symbol.head? with
  | none => .error .indexError
  | some c0 =>
    if varchar.contains c0 then
      match get_rule_range document pos with
      | none => .error .valueError
      | some se =>
          let pattern := 0x5B :: varchar ++ [0x5D] ++ symbol.tail ++ cps "\\b"
          let rule_lines := pySlice (splitLines document) se.1 (se.2 + 1)
          let rel_offset := se.1
          if wildcard_found then
            match firstIdxWith rule_lines (cps "strings:") with
            | none => .error .indexError
            | some ss =>
                match firstIdxWith rule_lines (cps "condition:") with
                | none => .error .indexError
                | some sc =>
                    let strings_lines := pySlice rule_lines ss sc
                    match compileRe pattern with
                    | none => .ok []
                    | some toks =>
                        .ok (matchLocations toks strings_lines (rel_offset + ss) 1 uri)
          else
            match compileRe pattern with
            | none => .ok []
            | some toks => .ok (matchLocations toks rule_lines rel_offset 1 uri)
    else
      let pattern := symbol ++ cps "\\b"
      match compileRe pattern with
      | none => .ok []
      | some toks => .ok (matchLocations toks (splitLines document) 0 0 uri)

/-- `provide_reference` before its exception wrapper.  The position is read
with direct indexing (`params["position"]["line"]`); returns `None` (here
`none`) when the session has not started or the URI is missing. -/
def provide_reference_aux (message : Json) (has_started : Bool)
    (dirty_files : PyDict) (fs : Fs) : Except PyErr (Option (List Location)) := do
  let params ← pyGetD message (cps "params") (Json.obj [])
  let td ← pyGetD params (cps "textDocument") (Json.obj [])
  let file_uri ← pyGetD td (cps "uri") Json.null
  if has_started && truthy file_uri then
    let docJ ← _get_document file_uri dirty_files fs
    let document ← asStr docJ
    let posJ ← pyIndex params (cps "position")
    let lineJ ← pyIndex posJ (cps "line")
    let charJ ← pyIndex posJ (cps "character")
    let line ← pyIntOfJson lineJ
    let char ← pyIntOfJson charJ
    let pos : Pos := ⟨line, char⟩
    match resolve_symbol document pos with
    | none => return some []
    | some symbol =>
        match referenceCore document pos symbol (pyStr file_uri) with
        | .ok locs => return some locs
        | .error e => .error e
  else
    return none

/-- `provide_reference`: any exception becomes a `SymbolReferenceError`. -/
def provide_reference (message : Json) (has_started : Bool)
    (dirty_files : PyDict) (fs : Fs) : Except SrvErr (Option (List Location)) :=
  match provide_reference_aux message has_started dirty_files fs with
  | .ok x => .ok x
  | .error _ => .error .symbolReferenceError

/- ### `YaraLanguageServer.provide_rename` -/

/-- `provide_rename` before its exception wrapper.  The three guards only
log warnings and fall through (`None.endswith` raises when no symbol
resolved); the edits are built from the references regardless. -/
def provide_rename_aux (message : Json) (has_started : Bool)
    (dirty_files : PyDict) (fs : Fs) : Except SrvErr (Option WorkspaceEdit) := do
  let params ← pyE (pyGetD message (cps "params") (Json.obj []))
  let td ← pyE (pyGetD params (cps "textDocument") (Json.obj []))
  let file_uri ← pyE (pyGetD td (cps "uri") Json.null)
  if has_started && truthy file_uri then
    let docJ ← pyE (_get_document file_uri dirty_files fs)
    let document ← pyE (asStr docJ)
    let posJ ← pyE (pyIndex params (cps "position"))
    let lineJ ← pyE (pyIndex posJ (cps "line"))
    let charJ ← pyE (pyIndex posJ (cps "character"))
    let line ← pyE (pyIntOfJson lineJ)
    let char ← pyE (pyIntOfJson charJ)
    let old_text := resolve_symbol document ⟨line, char⟩
    let new_text ← pyE (pyGetD params (cps "newName") Json.null)
    let _ ←
      (if beqJson new_text Json.null then .ok ()
       else if (match old_text with
                | some o => beqJson new_text (Json.str o)
                | none => false) then .ok ()
       else
         match old_text with
         | none => .error (SrvErr.py .attributeError)
         | some _ => .ok () : Except SrvErr Unit)
    let refsOpt ← provide_reference message has_started dirty_files fs
    match refsOpt with
    | none => .error (SrvErr.py .typeError)
    | some refs =>
        match refs, new_text with
        | [], _ => return some (WorkspaceEdit.mk file_uri [])
        | _, Json.str s =>
            return some (WorkspaceEdit.mk file_uri
              (refs.map (fun r => TextEdit.mk r.range s)))
        | _, _ => .error (SrvErr.py .typeError)
  else
    return none

/-- `provide_rename`: any exception becomes a `RenameError`. -/
def provide_rename (message : Json) (has_started : Bool)
    (dirty_files : PyDict) (fs : Fs) : Except SrvErr (Option WorkspaceEdit) :=
  match provide_rename_aux message has_started dirty_files fs with
  | .ok x => .ok x
  | .error _ => .error .renameError

/- ### `YaraLanguageServer.provide_hover` -/

/-- Python list indexing (negative indices wrap). -/
def pyListIdx (ls : List (List Nat)) (i : Int) : Except PyErr (List Nat) :=
  let j : Int := if i < 0 then (ls.length : Int) + i else i
  if 0 ≤ j ∧ j < (ls.length : Int) then
    match ls.get? j.toNat with
    | some l => .ok l
    | none => .error .indexError
  else .error .indexError

/-- `s.split(sep)` for a non-empty multi-character separator (the callers
guard the empty separator, which raises `ValueError` in Python); one fuel
unit per consumed character. -/
def splitOnSubAux : Nat → List Nat → List Nat → List (List Nat)
  | 0, _, _ => []
  | _ + 1, _, [] => [[]]
  | fuel + 1, sep, c :: rest =>
      match sep with
      | [] => [c :: rest]
      | s0 :: stail =>
          if (s0 :: stail).isPrefixOf (c :: rest) then
            match splitOnSubAux fuel (s0 :: stail) (rest.drop stail.length) with
            | [] => [[]]
            | ls => [] :: ls
          else
            match splitOnSubAux fuel (s0 :: stail) rest with
            | [] => [[c]]
            | l :: ls => (c :: l) :: ls

/-- `s.split(sep)`. -/
def splitOnSub (sep s : List Nat) : List (List Nat) :=
  splitOnSubAux (s.length + 1) sep s

/-- `provide_hover` before its exception wrapper: reuse the definition
provider; with at least one location, split the declaration line on
`" = "` and return the right-hand side as plaintext hover content. -/
def provide_hover_aux (message : Json) (has_started : Bool)
    (dirty_files : PyDict) (fs : Fs) : Except SrvErr (Option HoverR) := do
  let params ← pyE (pyGetD message (cps "params") (Json.obj []))
  let td ← pyE (pyGetD params (cps "textDocument") (Json.obj []))
  let file_uri ← pyE (pyGetD td (cps "uri") Json.null)
  if has_started && truthy file_uri then
    let docJ ← pyE (_get_document file_uri dirty_files fs)
    let document ← pyE (asStr docJ)
    let defs ← provide_definition message has_started dirty_files fs
    match defs.head? with
    | none => return none
    | some definition =>
        let ln ← pyE (pyListIdx (splitLines document) definition.range.start.line)
        let words := splitOnSub (cps " = ") ln
        match words.get? 1 with
        | some w => return some ⟨w⟩
        | none => return none
  else
    return none

/-- `provide_hover`: any exception becomes a `HoverError`. -/
def provide_hover (message : Json) (has_started : Bool)
    (dirty_files : PyDict) (fs : Fs) : Except SrvErr (Option HoverR) :=
  match provide_hover_aux message has_started dirty_files fs with
  | .ok x => .ok x
  | .error _ => .error .hoverError

/- ### `YaraLanguageServer.provide_highlight` (stub in the source) -/

/-- `provide_highlight` before its exception wrapper: a stub that returns
the empty list once started (and `None` otherwise). -/
def provide_highlight_aux (message : Json) (has_started : Bool) :
    Except SrvErr (Option (List Location)) := do
  let params ← pyE (pyGetD message (cps "params") (Json.obj []))
  let td ← pyE (pyGetD params (cps "textDocument") (Json.obj []))
  let file_uri ← pyE (pyGetD td (cps "uri") Json.null)
  if has_started && truthy file_uri then return some [] else return none

/-- `provide_highlight`: any exception becomes a `HighlightError`. -/
def provide_highlight (message : Json) (has_started : Bool) :
    Except SrvErr (Option (List Location)) :=
  match provide_highlight_aux message has_started with
  | .ok x => .ok x
  | .error _ => .error .highlightError

/- ### `YaraLanguageServer.provide_code_completion` -/

/-- ASCII `str.lower()`. -/
def toLowerCp (c : Nat) : Nat :=
  if 0x41 ≤ c ∧ c ≤ 0x5A then c + 0x20 else c

/-- `sep.join(parts)`. -/
def joinWith (sep : List Nat) : List (List Nat) → List Nat
  | [] => []
  | p :: rest => p ++ rest.flatMap (fun q => sep ++ q)

/-- One term's completion items (the body of the
`for term in possible_terms` loop): a string child is wrapped as a
one-entry dict, list children become dictionary-key snippets, dict
children branch on the declared kind. -/
def completionItemsForTerm (trigger : List Nat) (symbols : List (List Nat))
    (depth : Nat) (term : List Nat) (v : Json) : List CompletionItem :=
  let citems := match v with
    | .str s => Json.obj [(term, Json.str s)]
    | x => x
  match citems with
  | .arr labels =>
      labels.map (fun lab =>
        let l := pyStr lab
        let snippet := term ++ cps "[\"" ++ l ++ cps "\"]"
        ⟨l, 7, snippet, joinWith trigger (symbols.take depth ++ [snippet])⟩)
  | .obj fields =>
      fields.map (fun f =>
        let lab := f.1
        let ty := (pyStr f.2).map toLowerCp
        if ty = cps "enum" then
          ⟨lab, 12, lab, joinWith trigger (symbols.take depth ++ [lab])⟩
        else if ty = cps "property" then
          ⟨lab, 9, lab, joinWith trigger (symbols.take depth ++ [lab])⟩
        else if ty = cps "function" then
          let snippet := lab ++ cps "()"
          ⟨lab, 2, snippet, joinWith trigger (symbols.take depth ++ [snippet])⟩
        else ⟨lab, 7, lab, joinWith trigger (symbols ++ [lab])⟩)
  | _ => []

/-- The `for depth, symbol in enumerate(symbols)` walk: descend into the
schema until the last path segment, then enumerate the children whose name
starts with it. -/
def completionWalk (trigger : List Nat) (symbols : List (List Nat)) :
    Nat → List (List Nat) → Json → Except PyErr (List CompletionItem)
  | _, [], _ => .ok []
  | depth, [sym], schema =>
      match schema with
      | .obj fields =>
          .ok ((fields.filter (fun f => sym.isPrefixOf f.1)).flatMap
            (fun f => completionItemsForTerm trigger symbols depth f.1 f.2))
      | _ => .error .typeError
  | depth, sym :: rest, schema =>
      match schema with
      | .obj fields =>
          match fieldGet fields sym with
          | some v => completionWalk trigger symbols (depth + 1) rest v
          | none => .error .indexError
      | _ => .error .typeError

/-- `provide_code_completion` before its exception wrapper.  The module
schema (class attribute `modules`, loaded from `data/modules.json`, a data
file absent from the source tree) is passed as a parameter. -/
def provide_code_completion_aux (modulesSchema : Json) (message : Json)
    (has_started : Bool) (dirty_files : PyDict) (fs : Fs) :
    Except PyErr (Option (List CompletionItem)) := do
  let params ← pyGetD message (cps "params") (Json.obj [])
  let td ← pyGetD params (cps "textDocument") (Json.obj [])
  let file_uri ← pyGetD td (cps "uri") Json.null
  if has_started && truthy file_uri then
    let docJ ← _get_document file_uri dirty_files fs
    let document ← asStr docJ
    let ctx ← pyGetD params (cps "context") (Json.obj [])
    let triggerJ ← pyGetD ctx (cps "triggerCharacter") (Json.str (cps "."))
    let posJ ← pyIndex params (cps "position")
    let lineJ ← pyIndex posJ (cps "line")
    let charJ ← pyIndex posJ (cps "character")
    let charM ← (match charJ with
      | .num n => Except.ok (Json.num (n - 1))
      | .bool b => Except.ok (Json.num ((if b then (1 : Int) else 0) - 1))
      | _ => Except.error PyErr.typeError)
    let line ← pyIntOfJson lineJ
    let char ← pyIntOfJson charM
    match resolve_symbol document ⟨line, char⟩ with
    | none => return some []
    | some symbol =>
        let trigger ← asStr triggerJ
        if trigger.isEmpty then .error .valueError
        else
          let symbols := splitOnSub trigger symbol
          let items ← completionWalk trigger symbols 0 symbols modulesSchema
          return some items
  else
    return none

/-- `provide_code_completion`: any exception becomes a
`CodeCompletionError`. -/
def provide_code_completion (modulesSchema : Json) (message : Json)
    (has_started : Bool) (dirty_files : PyDict) (fs : Fs) :
    Except SrvErr (Option (List CompletionItem)) :=
  match provide_code_completion_aux modulesSchema message has_started dirty_files fs with
  | .ok x => .ok x
  | .error _ => .error .codeCompletionError

/- ### Base server event handlers (`yarals/base/server.py`) -/

/-- Python iteration over a JSON value (`for x in v`): lists yield
elements, strings yield one-character strings, dicts yield keys. -/
def asIterList : Json → Except PyErr (List Json)
  | .arr l => .ok l
  | .str s => .ok (s.map (fun c => Json.str [c]))
  | .obj fields => .ok (fields.map (fun f => Json.str f.1))
  | _ => .error .typeError

/-- `LanguageServer.event_did_change` (lines 99-113): with the session
started and a URI present, each content change carrying truthy text
overwrites the URI's overlay in the dirty-files table. -/
def event_did_change (has_started : Bool) (message : Json)
    (dirty_files : PyDict) : Except PyErr PyDict := do
  let params ← pyGetD message (cps "params") (Json.obj [])
  let td ← pyGetD params (cps "textDocument") (Json.obj [])
  let file_uri ← pyGetD td (cps "uri") Json.null
  if has_started && truthy file_uri then
    let changesJ ← pyGetD params (cps "contentChanges") (Json.arr [])
    let changes ← asIterList changesJ
    changes.foldlM
      (fun d ch => do
        let change ← pyGetD ch (cps "text") Json.null
        if truthy change then return dictSet d file_uri change else return d)
      dirty_files
  else
    return dirty_files

/- ### Routing and the session lifecycle -/

/-- `RouteType` from `yarals/base/server.py`. -/
inductive RtType where
  | feature : RtType
  | event : RtType
  | command : RtType
deriving DecidableEq, Repr

/-- The handler methods a `YaraLanguageServer` registers in `__init__`. -/
inductive Handler where
  | initializeReq | shutdown | executeCommand | completion | definition
  | formatting | highlight | hover | references | rename
  | didChange | didClose | didSave | exitEv | cancel
deriving DecidableEq, Repr

/-- A string-keyed handler table (`request_handlers` etc.). -/
abbrev HandlerTable := List (List Nat × Handler)

/-- `handlers[request] = method`: overwrite in place or append. -/
def tableSet (d : HandlerTable) (k : List Nat) (v : Handler) : HandlerTable :=
  match d with
  | [] => [(k, v)]
  | (k', v') :: rest =>
      if k' = k then (k', v) :: rest else (k', v') :: tableSet rest k v

/-- `handlers[request]` lookup. -/
def tableGet (d : HandlerTable) (k : List Nat) : Option Handler :=
  match d with
  | [] => none
  | (k', v) :: rest => if k' = k then some v else tableGet rest k

/-- The three routing tables of a `LanguageServer`. -/
structure Routes where
  request_handlers : HandlerTable
  event_handlers : HandlerTable
  command_handlers : HandlerTable
deriving Repr

/-- `LanguageServer.route` (lines 192-206). -/
def Routes.route (r : Routes) (request : List Nat) (h : Handler) (ty : RtType) :
    Routes :=
  match ty with
  | .event => { r with event_handlers := tableSet r.event_handlers request h }
  | .command => { r with command_handlers := tableSet r.command_handlers request h }
  | .feature => { r with request_handlers := tableSet r.request_handlers request h }

/-- The fifteen `self.route(...)` calls of `YaraLanguageServer.__init__`
(lines 43-57), in source order. -/
def yaraServerRoutes : Routes :=
  ((((((((((((((((Routes.mk [] [] []).route
    (cps "initialize") .initializeReq .feature).route
    (cps "shutdown") .shutdown .feature).route
    (cps "workspace/executeCommand") .executeCommand .feature).route
    (cps "textDocument/completion") .completion .feature).route
    (cps "textDocument/definition") .definition .feature).route
    (cps "textDocument/formatting") .formatting .feature).route
    (cps "textDocument/documentHighlight") .highlight .feature).route
    (cps "textDocument/hover") .hover .feature).route
    (cps "textDocument/references") .references .feature).route
    (cps "textDocument/rename") .rename .feature).route
    (cps "textDocument/didChange") .didChange .event).route
    (cps "textDocument/didClose") .didClose .event).route
    (cps "textDocument/didSave") .didSave .event).route
    (cps "exit") .exitEv .event).route
    (cps "$/cancelRequest") .cancel .event)

/-- Session lifecycle phases (spec §3 `SessionPhase`). -/
inductive SessionPhase where
  | disconnected | connected | initialized | shuttingDown | exited
deriving DecidableEq, Repr

/-- Modelled from the spec: the `shutdown` method body referenced by
`self.route("shutdown", self.shutdown, ...)` is absent from the source
tree (only its registration and its tests are present).  §4.5: a
`shutdown` request moves an `Initialized` session to `ShuttingDown`. -/
def shutdownStep : SessionPhase → SessionPhase
  | .initialized => .shuttingDown
  | p => p

/- ### `YaraLanguageServer.execute_method` -/

/-- How the awaited handler coroutine behaves under
`asyncio.wait_for(..., TASK_TIMEOUT)`: it completes with a result, exceeds
the timeout, or raises.  (Real time is abstracted into this outcome.) -/
inductive HandlerOutcome where
  | completes (result : Json) : HandlerOutcome
  | timesOut : HandlerOutcome
  | raises (e : SrvErr) : HandlerOutcome

/-- Observable effects of one `execute_method` call: responses written via
`send_response` (id paired with result), timeout warnings logged (id
paired with the original message), unknown-method error logs, and any
exception escaping the call. -/
structure ExecEffects where
  responses : List (Json × Json)
  timeoutWarnings : List (Json × Json)
  unknownMethodLogs : Nat
  raised : Option SrvErr
deriving Repr

/-- `YaraLanguageServer.execute_method` (lines 272-298): convert the raw
`id` with `int()` (uncaught `TypeError`/`ValueError` for `None`/non-numeric
strings), dispatch registered methods with a nonnegative id, answer
timeouts with one warning and one null response, answer unknown methods
or negative ids with a null response and an error log. -/
def execute_method (method : List Nat) (message : Json)
    (outcome : HandlerOutcome) : ExecEffects :=
  match pyGetD message (cps "id") Json.null with
  | .error e => ⟨[], [], 0, some (.py e)⟩
  | .ok msgId =>
    match pyIntOfJson msgId with
    | .error e => ⟨[], [], 0, some (.py e)⟩
    | .ok i =>
      if 0 ≤ i && (tableGet yaraServerRoutes.request_handlers method).isSome then
        match outcome with
        | .completes r =>
            if method = cps "shutdown" || method = cps "exit" then ⟨[], [], 0, none⟩
            else ⟨[(msgId, r)], [], 0, none⟩
        | .timesOut => ⟨[(msgId, Json.null)], [(msgId, message)], 0, none⟩
        | .raises e => ⟨[], [], 0, some e⟩
      else
        ⟨[(msgId, Json.null)], [], 1, none⟩

/- ### Wire codec (`LanguageServer.write_data` / `read_request`)

Python `json.dumps(..., cls=lsp.JSONEncoder)` keeps the stdlib defaults:
`ensure_ascii=True` (non-ASCII escaped as `\uXXXX`), separators `", "` and
`": "`.  The stdlib `json` module is not part of this repository, so
`dumps`/`jsonLoads` below model its documented behaviour for the JSON
fragment the server exchanges (numbers restricted to integers). -/

/-- UTF-8 encoding of one code point (`none` models `UnicodeEncodeError`
for surrogates and out-of-range values). -/
def utf8EncodeChar (c : Nat) : Option (List Nat) :=
  if c < 0x80 then some [c]
  else if c < 0x800 then some [0xC0 + c / 0x40, 0x80 + c % 0x40]
  else if 0xD800 ≤ c ∧ c < 0xE000 then none
  else if c < 0x10000 then
    some [0xE0 + c / 0x1000, 0x80 + c / 0x40 % 0x40, 0x80 + c % 0x40]
  else if c < 0x110000 then
    some [0xF0 + c / 0x40000, 0x80 + c / 0x1000 % 0x40,
          0x80 + c / 0x40 % 0x40, 0x80 + c % 0x40]
  else none

/-- `str.encode("utf-8")`. -/
def utf8Encode (s : List Nat) : Option (List Nat) :=
  (s.mapM utf8EncodeChar).map List.flatten

/-- A UTF-8 continuation byte. -/
def isContByte (b : Nat) : Bool := 0x80 ≤ b && b < 0xC0

/-- `bytes.decode("utf-8")`, fuel-bounded (`none` models
`UnicodeDecodeError`). -/
def utf8DecodeAux : Nat → List Nat → Option (List Nat)
  | 0, _ => none
  | _ + 1, [] => some []
  | fuel + 1, b :: rest =>
      if b < 0x80 then (utf8DecodeAux fuel rest).map (b :: ·)
      else if b < 0xC2 then none
      else if b < 0xE0 then
        match rest with
        | b2 :: rest2 =>
            if isContByte b2 then
              (utf8DecodeAux fuel rest2).map (((b - 0xC0) * 0x40 + (b2 - 0x80)) :: ·)
            else none
        | _ => none
      else if b < 0xF0 then
        match rest with
        | b2 :: b3 :: rest3 =>
            if isContByte b2 && isContByte b3 then
              let v := (b - 0xE0) * 0x1000 + (b2 - 0x80) * 0x40 + (b3 - 0x80)
              if 0x800 ≤ v ∧ ¬ (0xD800 ≤ v ∧ v < 0xE000) then
                (utf8DecodeAux fuel rest3).map (v :: ·)
              else none
            else none
        | _ => none
      else if b < 0xF5 then
        match rest with
        | b2 :: b3 :: b4 :: rest4 =>
            if isContByte b2 && isContByte b3 && isContByte b4 then
              let v := (b - 0xF0) * 0x40000 + (b2 - 0x80) * 0x1000 +
                       (b3 - 0x80) * 0x40 + (b4 - 0x80)
              if 0x10000 ≤ v ∧ v < 0x110000 then
                (utf8DecodeAux fuel rest4).map (v :: ·)
              else none
            else none
        | _ => none
      else none

/-- `bytes.decode("utf-8")`. -/
def utf8Decode (s : List Nat) : Option (List Nat) :=
  utf8DecodeAux (s.length + 1) s

/-- `LanguageServer.write_data` (lines 238-242): one buffered write of
`"Content-Length: {:d}\r\n\r\n{:s}".format(len(message), message)` encoded
as UTF-8.  `len(message)` is the code-point count of the Python string. -/
def write_data (message : List Nat) : Option (List Nat) :=
  utf8Encode (cps "Content-Length: " ++ natDecCps message.length ++
              cps "\r\n\r\n" ++ message)

/-- `reader.readline()`: bytes up to and including the first newline. -/
def readLine : List Nat → List Nat × List Nat
  | [] => ([], [])
  | c :: rest =>
      if c = 0x0A then ([c], rest)
      else
        let p := readLine rest
        (c :: p.1, p.2)

/-- `reader.readuntil(b"\r\n")`: consumed bytes (with separator) and the
remainder; `none` models `IncompleteReadError`. -/
def readUntilCRLF : List Nat → Option (List Nat × List Nat)
  | [] => none
  | 0x0D :: 0x0A :: rest => some ([0x0D, 0x0A], rest)
  | c :: rest => (readUntilCRLF rest).map (fun p => (c :: p.1, p.2))

/- ### `json.dumps` (canonical serializer, `ensure_ascii`) -/

/-- Lowercase hexadecimal digit. -/
def hexDig (d : Nat) : Nat := if d < 10 then 0x30 + d else 0x61 + (d - 10)

/-- `\uXXXX` escape of a value below `0x10000`. -/
def escUHex (n : Nat) : List Nat :=
  [0x5C, 0x75, hexDig (n / 4096 % 16), hexDig (n / 256 % 16),
   hexDig (n / 16 % 16), hexDig (n % 16)]

/-- One character of a JSON string under `ensure_ascii`: short escapes for
the usual controls, `\uXXXX` for other controls and all non-ASCII
(surrogate pairs above the BMP), printable ASCII verbatim. -/
def escChar (c : Nat) : List Nat :=
  if c = 0x22 then [0x5C, 0x22]
  else if c = 0x5C then [0x5C, 0x5C]
  else if c = 0x0A then [0x5C, 0x6E]
  else if c = 0x0D then [0x5C, 0x72]
  else if c = 0x09 then [0x5C, 0x74]
  else if c = 0x08 then [0x5C, 0x62]
  else if c = 0x0C then [0x5C, 0x66]
  else if c < 0x20 then escUHex c
  else if c < 0x7F then [c]
  else if c < 0x10000 then escUHex c
  else escUHex (0xD800 + (c - 0x10000) / 0x400) ++
       escUHex (0xDC00 + (c - 0x10000) % 0x400)

/-- A serialized JSON string. -/
def dumpsStr (s : List Nat) : List Nat :=
  0x22 :: s.flatMap escChar ++ [0x22]

mutual

/-- `json.dumps` with the stdlib defaults (separators `", "`/`": "`). -/
def dumps : Json → List Nat
  | .null => cps "null"
  | .bool true => cps "true"
  | .bool false => cps "false"
  | .num n => intDecCps n
  | .str s => dumpsStr s
  | .arr xs => 0x5B :: dumpsArr xs ++ [0x5D]
  | .obj fs => 0x7B :: dumpsObj fs ++ [0x7D]

def dumpsArr : List Json → List Nat
  | [] => []
  | [x] => dumps x
  | x :: xs => dumps x ++ [0x2C, 0x20] ++ dumpsArr xs

def dumpsObj : List (List Nat × Json) → List Nat
  | [] => []
  | [(k, v)] => dumpsStr k ++ [0x3A, 0x20] ++ dumps v
  | (k, v) :: fs => dumpsStr k ++ [0x3A, 0x20] ++ dumps v ++ [0x2C, 0x20] ++ dumpsObj fs

end

/-- Valid Unicode scalar value (Python strings containing lone surrogates
cannot be UTF-8-encoded and never reach the wire). -/
def wfScalar (c : Nat) : Bool :=
  c < 0xD800 || (0xE000 ≤ c && c < 0x110000)

mutual

/-- Well-formed message value: every string is made of valid scalars. -/
def wfJson : Json → Bool
  | .null => true
  | .bool _ => true
  | .num _ => true
  | .str s => s.all wfScalar
  | .arr xs => wfJsonList xs
  | .obj fs => wfJsonFields fs

def wfJsonList : List Json → Bool
  | [] => true
  | x :: xs => wfJson x && wfJsonList xs

def wfJsonFields : List (List Nat × Json) → Bool
  | [] => true
  | (k, v) :: fs => k.all wfScalar && wfJson v && wfJsonFields fs

end

/- ### `json.loads` (parser for the canonical grammar) -/

/-- JSON whitespace. -/
def jsonWS (c : Nat) : Bool := c = 0x20 || c = 0x09 || c = 0x0A || c = 0x0D

/-- ASCII decimal digit. -/
def isDigitCp (c : Nat) : Bool := 0x30 ≤ c && c ≤ 0x39

/-- Numeric value of a digit run. -/
def digitsToNat (ds : List Nat) : Nat :=
  ds.foldl (fun a c => a * 10 + (c - 0x30)) 0

/-- Parse an integer literal (the number fragment the server exchanges). -/
def parseNum : List Nat → Option (Int × List Nat)
  | [] => none
  | c :: rest =>
      if c = 0x2D then
        let ds := rest.takeWhile isDigitCp
        if ds.isEmpty then none
        else some (-(digitsToNat ds : Int), rest.dropWhile isDigitCp)
      else
        let ds := (c :: rest).takeWhile isDigitCp
        if ds.isEmpty then none
        else some ((digitsToNat ds : Int), (c :: rest).dropWhile isDigitCp)

/-- Short escape decoding. -/
def escDecode (e : Nat) : Option Nat :=
  if e = 0x22 then some 0x22
  else if e = 0x5C then some 0x5C
  else if e = 0x2F then some 0x2F
  else if e = 0x62 then some 0x08
  else if e = 0x66 then some 0x0C
  else if e = 0x6E then some 0x0A
  else if e = 0x72 then some 0x0D
  else if e = 0x74 then some 0x09
  else none

/-- Parse a string body up to the closing quote.  `\uXXXX` escapes are
decoded, adjacent high/low surrogate escapes are combined (as
`json.loads` does); raw control characters are rejected.  `fuel` bounds
the recursion (one unit per decoded character). -/
def parseStrBody : Nat → List Nat → Option (List Nat × List Nat)
  | 0, _ => none
  | _ + 1, [] => none
  | fuel + 1, c :: rest =>
      if c = 0x22 then some ([], rest)
      else if c = 0x5C then
        match rest with
        | [] => none
        | e :: tail =>
            if e = 0x75 then
              match tail with
              | a :: b :: cc :: d :: rest1 =>
                  match hexVal a, hexVal b, hexVal cc, hexVal d with
                  | some x, some y, some z, some w =>
                      let n := ((x * 16 + y) * 16 + z) * 16 + w
                      if 0xD800 ≤ n ∧ n < 0xDC00 then
                        match rest1 with
                        | 0x5C :: 0x75 :: a2 :: b2 :: c2 :: d2 :: rest2 =>
                            match hexVal a2, hexVal b2, hexVal c2, hexVal d2 with
                            | some x2, some y2, some z2, some w2 =>
                                let m := ((x2 * 16 + y2) * 16 + z2) * 16 + w2
                                if 0xDC00 ≤ m ∧ m < 0xE000 then
                                  (parseStrBody fuel rest2).map (fun p =>
                                    ((0x10000 + (n - 0xD800) * 0x400 + (m - 0xDC00)) :: p.1, p.2))
                                else
                                  (parseStrBody fuel rest1).map (fun p => (n :: p.1, p.2))
                            | _, _, _, _ =>
                                (parseStrBody fuel rest1).map (fun p => (n :: p.1, p.2))
                        | _ => (parseStrBody fuel rest1).map (fun p => (n :: p.1, p.2))
                      else (parseStrBody fuel rest1).map (fun p => (n :: p.1, p.2))
                  | _, _, _, _ => none
              | _ => none
            else
              match escDecode e with
              | some c0 => (parseStrBody fuel tail).map (fun p => (c0 :: p.1, p.2))
              | none => none
      else if c < 0x20 then none
      else (parseStrBody fuel rest).map (fun p => (c :: p.1, p.2))

/-- Parse a string body with sufficient fuel for its input. -/
def parseStr (s : List Nat) : Option (List Nat × List Nat) :=
  parseStrBody (s.length + 1) s

mutual

/-- Parse one JSON value of the canonical grammar. -/
def parseVal : Nat → List Nat → Option (Json × List Nat)
  | 0, _ => none
  | _ + 1, [] => none
  | fuel + 1, c :: rest =>
      if c = 0x22 then
        (parseStr rest).map (fun p => (Json.str p.1, p.2))
      else if c = 0x5B then
        if rest.head? = some 0x5D then some (Json.arr [], rest.tail)
        else
          match parseElems fuel rest with
          | some (xs, r) => some (Json.arr xs, r)
          | none => none
      else if c = 0x7B then
        if rest.head? = some 0x7D then some (Json.obj [], rest.tail)
        else
          match parseFields fuel rest with
          | some (fs, r) => some (Json.obj fs, r)
          | none => none
      else if c = 0x6E then
        if (cps "ull").isPrefixOf rest then some (Json.null, rest.drop 3) else none
      else if c = 0x74 then
        if (cps "rue").isPrefixOf rest then some (Json.bool true, rest.drop 3) else none
      else if c = 0x66 then
        if (cps "alse").isPrefixOf rest then some (Json.bool false, rest.drop 4) else none
      else
        (parseNum (c :: rest)).map (fun p => (Json.num p.1, p.2))

/-- Parse the elements of a nonempty array up to `]`. -/
def parseElems : Nat → List Nat → Option (List Json × List Nat)
  | 0, _ => none
  | fuel + 1, s =>
      match parseVal fuel s with
      | none => none
      | some (v, rest) =>
          match rest with
          | [] => none
          | c :: rest' =>
              if c = 0x5D then some ([v], rest')
              else if c = 0x2C then
                let rest'' := if rest'.head? = some 0x20 then rest'.tail else rest'
                match parseElems fuel rest'' with
                | some (xs, r) => some (v :: xs, r)
                | none => none
              else none

/-- Parse the fields of a nonempty object up to the closing brace. -/
def parseFields : Nat → List Nat → Option (List (List Nat × Json) × List Nat)
  | 0, _ => none
  | fuel + 1, s =>
      match s with
      | [] => none
      | c :: rest =>
          if c = 0x22 then
            match parseStr rest with
            | none => none
            | some (k, r1) =>
                match r1 with
                | [] => none
                | c2 :: r2 =>
                    if c2 = 0x3A then
                      let r3 := if r2.head? = some 0x20 then r2.tail else r2
                      match parseVal fuel r3 with
                      | none => none
                      | some (v, r4) =>
                          match r4 with
                          | [] => none
                          | c3 :: r5 =>
                              if c3 = 0x7D then some ([(k, v)], r5)
                              else if c3 = 0x2C then
                                let r6 := if r5.head? = some 0x20 then r5.tail else r5
                                match parseFields fuel r6 with
                                | some (fs, r) => some ((k, v) :: fs, r)
                                | none => none
                              else none
                    else none
          else none

end

/-- `json.loads` restricted to the canonical grammar emitted by `dumps`
(surrounding whitespace allowed, full consumption required). -/
def jsonLoads (s : List Nat) : Option Json :=
  let s1 := s.dropWhile jsonWS
  match parseVal (4 * s1.length + 4) s1 with
  | some (v, rest) => if rest.dropWhile jsonWS = [] then some v else none
  | none => none

/-- `LanguageServer.read_request` (lines 149-165): read the header line,
split it on a space into exactly two parts, consume the separator, read
the `Content-Length` body (or fall back to one more line), decode and
JSON-parse it.  `none` models any exception; an empty first read returns
the empty request dict. -/
def read_request (stream : List Nat) : Option Json :=
  let p := readLine stream
  if p.1.isEmpty then some (Json.obj [])
  else do
    let dataC ← utf8Decode p.1
    match splitOnCp 0x20 (pyStrip dataC) with
    | [key, value] => do
        let sep ← readUntilCRLF p.2
        let body ←
          (if key = cps "Content-Length:" then do
            let n ← pyParseIntStr value
            if n < 0 then none
            else if sep.2.length < n.toNat then none
            else some (sep.2.take n.toNat)
          else some (readLine sep.2).1)
        let bodyC ← utf8Decode body
        jsonLoads bodyC
    | _ => none

/- ### Statement-support definitions -/

/-- A `textDocument/*` request message with the given URI and position. -/
def posMessage (u : List Nat) (l c : Int) : Json :=
  Json.obj [(cps "params", Json.obj [
    (cps "textDocument", Json.obj [(cps "uri", Json.str u)]),
    (cps "position", Json.obj [(cps "line", Json.num l),
                               (cps "character", Json.num c)])])]

/-- A `textDocument/rename` request message. -/
def renameMessage (u : List Nat) (l c : Int) (newName : Json) : Json :=
  Json.obj [(cps "params", Json.obj [
    (cps "textDocument", Json.obj [(cps "uri", Json.str u)]),
    (cps "position", Json.obj [(cps "line", Json.num l),
                               (cps "character", Json.num c)]),
    (cps "newName", newName)])]

/-- A `textDocument/didChange` notification with the given content
changes. -/
def didChangeMessage (u : List Nat) (chs : List Json) : Json :=
  Json.obj [(cps "params", Json.obj [
    (cps "textDocument", Json.obj [(cps "uri", Json.str u)]),
    (cps "contentChanges", Json.arr chs)])]

/-- A content-change entry that the spec calls empty: an object whose
`text` is absent or the empty string. -/
def emptyChange : Json → Bool
  | .obj fields =>
      match fieldGet fields (cps "text") with
      | none => true
      | some (.str s) => s.isEmpty
      | some _ => false
  | _ => false

/-- The message shape needed for the pre-initialization guard to be
reached: an object whose `params` (and `params.textDocument`) are objects
when present. -/
def preInitShape (message : Json) : Bool :=
  match message with
  | .obj fields =>
      match (fieldGet fields (cps "params")).getD (Json.obj []) with
      | .obj pf =>
          match (fieldGet pf (cps "textDocument")).getD (Json.obj []) with
          | .obj _ => true
          | _ => false
      | _ => false
  | _ => false

/-- Total number of pattern matches over a list of lines. -/
def matchesCount (toks : List RTok) (ls : List (List Nat)) : Nat :=
  (ls.map (fun l => (findIter toks l).length)).sum

/-- The number of declaration-pattern matches `provide_definition` scans
(0 along every path where the source returns `[]` or raises). -/
def definitionMatchCount (document : List Nat) (pos : Pos) (symbol : List Nat) :
    Nat :=
  match symbol.head? with
  | none => 0
  | some c0 =>
    if varchar.contains c0 then
      match get_rule_range document pos with
      | none => 0
      | some se =>
          match compileRe (cps "\\$" ++ symbol.tail ++ cps " =\\s") with
          | none => 0
          | some toks =>
              matchesCount toks (pySlice (splitLines document) se.1 (se.2 + 1))
    else
      match compileRe (cps "\\brule " ++ symbol ++ cps "\\b") with
      | none => 0
      | some toks => matchesCount toks (splitLines document)

/-- A single-rule document declaring `$a` and referencing it in the
condition. -/
def oneRuleDoc : List Nat :=
  cps "rule r\n\x7b\n    strings:\n        $a = \"x\"\n    condition:\n        $a\n\x7d\n"

/-- A document with the same rule name declared twice. -/
def dupRuleDoc : List Nat :=
  cps "rule foo \x7b \x7d\nrule foo \x7b \x7d\n"

/-- Two rules: `$foo` declared in the first, `#foo` referenced in the
second. -/
def twoRuleDoc : List Nat :=
  cps "rule first\n\x7b\n    strings:\n        $foo = \"x\"\n    condition:\n        $foo\n\x7d\nrule second\n\x7b\n    condition:\n        #foo > 0\n\x7d\n"

/-- One rule using `$foo` and `#foo` in the same scope. -/
def mixedSigilDoc : List Nat :=
  cps "rule r\n\x7b\n    strings:\n        $foo = \"y\"\n    condition:\n        #foo > 0\n\x7d\n"

/-- The sample URI used by the concrete instances. -/
def sampleUri : List Nat := cps "file:///t.yara"

/- ### Supporting lemmas -/

theorem beqJson_eq_str {k : Json} {u : List Nat} :
    beqJson k (Json.str u) = true ↔ k = Json.str u := by
  cases k with
  | null => simp [show beqJson Json.null (Json.str u) = false from rfl]
  | bool b => simp [show beqJson (Json.bool b) (Json.str u) = false from rfl]
  | num n => simp [show beqJson (Json.num n) (Json.str u) = false from rfl]
  | str s =>
      show (s == u) = true ↔ Json.str s = Json.str u
      simp
  | arr a => simp [show beqJson (Json.arr a) (Json.str u) = false from rfl]
  | obj o => simp [show beqJson (Json.obj o) (Json.str u) = false from rfl]

theorem beqJson_str_eq {u : List Nat} {k : Json} :
    beqJson (Json.str u) k = true ↔ k = Json.str u := by
  cases k with
  | null => simp [show beqJson (Json.str u) Json.null = false from rfl]
  | bool b => simp [show beqJson (Json.str u) (Json.bool b) = false from rfl]
  | num n => simp [show beqJson (Json.str u) (Json.num n) = false from rfl]
  | str s =>
      show (u == s) = true ↔ Json.str s = Json.str u
      constructor
      · intro h
        rw [eq_of_beq h]
      · intro h
        injection h with h2
        rw [h2]
        exact beq_self_eq_true u
  | arr a => simp [show beqJson (Json.str u) (Json.arr a) = false from rfl]
  | obj o => simp [show beqJson (Json.str u) (Json.obj o) = false from rfl]

theorem dictContains_eq_isSome (d : PyDict) (k : Json) :
    dictContains d k = (dictGet d k).isSome := by
  induction d with
  | nil => rfl
  | cons e rest ih =>
      cases hb : beqJson e.1 k <;>
        simp only [dictContains, dictGet, List.any_cons, List.find?_cons, hb] <;>
        simp_all [dictContains, dictGet]

theorem dictGet_dictSet_ne (d : PyDict) (u : List Nat) (v k : Json)
    (hk : k ≠ Json.str u) :
    dictGet (dictSet d (Json.str u) v) k = dictGet d k := by
  have hku : ∀ w : Json, w = Json.str u → beqJson w k = false := by
    intro w hw
    cases hb : beqJson w k
    · rfl
    · rw [hw] at hb
      exact absurd (beqJson_str_eq.mp hb) hk
  induction d with
  | nil =>
      simp [dictSet, dictGet, List.find?, hku (Json.str u) rfl]
  | cons e rest ih =>
      simp only [dictSet]
      by_cases hb : beqJson e.1 (Json.str u) = true
      · rw [if_pos hb]
        have he : e.1 = Json.str u := beqJson_eq_str.mp hb
        simp [dictGet, List.find?_cons, hku e.1 he]
      · rw [if_neg hb]
        cases hbk : beqJson e.1 k
        · simp only [dictGet, List.find?_cons, hbk]
          simpa [dictGet] using ih
        · simp [dictGet, List.find?_cons, hbk]

/- ### C6 -/

/-- C6: after construction, the feature-routing table maps `"shutdown"` to
the shutdown handler (modelled from the spec, its body being absent from
the source tree), and that handler moves an `Initialized` session to
`ShuttingDown`. -/
theorem C6_shutdown_registered :
    tableGet yaraServerRoutes.request_handlers (cps "shutdown") =
      some Handler.shutdown ∧
    shutdownStep SessionPhase.initialized = SessionPhase.shuttingDown :=
  ⟨rfl, rfl⟩

/- ### C7 -/

/-- C7: `_get_document` returns the overlay whenever the URI is a key of
the dirty-files table — independently of the file system — and otherwise
reads the file at the path decoded from the URI (`OSError` when absent). -/
theorem C7_document_overlay :
    ∀ (u : List Nat) (d : PyDict) (fs fs' : Fs) (v : Json) (text : List Nat),
      (dictGet d (Json.str u) = some v →
        _get_document (Json.str u) d fs = .ok v ∧
        _get_document (Json.str u) d fs = _get_document (Json.str u) d fs') ∧
      (dictGet d (Json.str u) = none → fs (parse_uri u) = some text →
        _get_document (Json.str u) d fs = .ok (.str text)) ∧
      (dictGet d (Json.str u) = none → fs (parse_uri u) = none →
        _get_document (Json.str u) d fs = .error .osError) := by
  intro u d fs fs' v text
  refine ⟨fun h => ⟨?_, ?_⟩, fun h h2 => ?_, fun h h2 => ?_⟩ <;>
    simp [_get_document, dictContains_eq_isSome, h] <;>
    simp [h2]

/-- Witness for C7 at a concrete overlay. -/
theorem C7_document_overlay_witness :
    _get_document (Json.str sampleUri)
        [(Json.str sampleUri, Json.str oneRuleDoc)] (fun _ => none) =
      .ok (Json.str oneRuleDoc) :=
  ((C7_document_overlay sampleUri
      [(Json.str sampleUri, Json.str oneRuleDoc)] (fun _ => none)
      (fun _ => none) (Json.str oneRuleDoc) []).1 rfl).1

/- ### C5 -/

/-- C5: when a dispatched request times out, `execute_method` sends exactly
one null-result response for that request's id and logs exactly one
timeout warning carrying that id and the original message. -/
theorem C5_timeout_response :
    ∀ (method : List Nat) (fields : List (List Nat × Json)) (msgId : Json) (i : Int),
      fieldGet fields (cps "id") = some msgId →
      pyIntOfJson msgId = .ok i →
      0 ≤ i →
      (tableGet yaraServerRoutes.request_handlers method).isSome = true →
      execute_method method (Json.obj fields) .timesOut =
        ⟨[(msgId, Json.null)], [(msgId, Json.obj fields)], 0, none⟩ := by
  intro method fields msgId i h1 h2 h3 h4
  simp [execute_method, pyGetD, h1, h2, h3, h4]

/-- Witness for C5 at a concrete request. -/
theorem C5_timeout_response_witness :
    execute_method (cps "textDocument/definition")
        (Json.obj [(cps "id", Json.num 1)]) .timesOut =
      ⟨[(Json.num 1, Json.null)],
       [(Json.num 1, Json.obj [(cps "id", Json.num 1)])], 0, none⟩ :=
  C5_timeout_response (cps "textDocument/definition")
    [(cps "id", Json.num 1)] (Json.num 1) 1 rfl rfl (by decide) rfl

/- ### C10 -/

/-- C10: a request whose `id` is `null` or a non-numeric string makes the
`int()` conversion raise before anything is written, so `execute_method`
sends no response at all. -/
theorem C10_nonint_id_no_response :
    ∀ (method : List Nat) (fields : List (List Nat × Json)) (msgId : Json)
      (outcome : HandlerOutcome),
      fieldGet fields (cps "id") = some msgId →
      (msgId = Json.null ∨ ∃ s, msgId = Json.str s ∧ pyParseIntStr s = none) →
      (execute_method method (Json.obj fields) outcome).responses = [] ∧
      (execute_method method (Json.obj fields) outcome).timeoutWarnings = [] ∧
      (execute_method method (Json.obj fields) outcome).raised.isSome = true := by
  intro method fields msgId outcome h1 h2
  rcases h2 with h | ⟨s, hsq, hs⟩
  · subst h; simp [execute_method, pyGetD, h1, pyIntOfJson]
  · subst hsq; simp [execute_method, pyGetD, h1, pyIntOfJson, hs]

/-- Witness for C10 at a null id. -/
theorem C10_nonint_id_no_response_witness :
    (execute_method (cps "textDocument/definition")
        (Json.obj [(cps "id", Json.null)]) (.completes Json.null)).responses = [] ∧
    (execute_method (cps "textDocument/definition")
        (Json.obj [(cps "id", Json.null)]) (.completes Json.null)).timeoutWarnings = [] ∧
    (execute_method (cps "textDocument/definition")
        (Json.obj [(cps "id", Json.null)]) (.completes Json.null)).raised.isSome = true :=
  C10_nonint_id_no_response (cps "textDocument/definition")
    [(cps "id", Json.null)] Json.null (.completes Json.null) rfl (Or.inl rfl)

/- ### C9 -/

theorem bindOkStep {ε α β : Type} (x : α) (f : α → Except ε β) :
    (Except.ok x >>= f) = f x := rfl

theorem bindPureStep {ε α β : Type} (x : α) (f : α → Except ε β) :
    ((pure x : Except ε α) >>= f) = f x := rfl

theorem bindErrorStep {ε α β : Type} (e : ε) (f : α → Except ε β) :
    ((Except.error e : Except ε α) >>= f) = .error e := rfl

theorem mapOkStep {ε α β : Type} (f : α → β) (x : α) :
    (f <$> (Except.ok x : Except ε α)) = .ok (f x) := rfl

theorem mapErrorStep {ε α β : Type} (f : α → β) (e : ε) :
    (f <$> (Except.error e : Except ε α)) = .error e := rfl

theorem event_did_change_didChangeMessage (hs : Bool) (u : List Nat)
    (chs : List Json) (d : PyDict) :
    event_did_change hs (didChangeMessage u chs) d =
      if hs && !u.isEmpty then
        chs.foldlM (fun d ch => do
            let change ← pyGetD ch (cps "text") Json.null
            if truthy change then return dictSet d (Json.str u) change
            else return d) d
      else .ok d := rfl

theorem didChangeFold_nochange :
    ∀ (chs : List Json) (d : PyDict) (u : List Nat),
      chs.all emptyChange = true →
      (chs.foldlM (fun d ch => do
          let change ← pyGetD ch (cps "text") Json.null
          if truthy change then return dictSet d (Json.str u) change
          else return d) d : Except PyErr PyDict) = .ok d := by
  intro chs
  induction chs with
  | nil => intro d u _; rfl
  | cons ch rest ih =>
      intro d u h
      simp only [List.all_cons, Bool.and_eq_true] at h
      obtain ⟨h1, h2⟩ := h
      rw [List.foldlM_cons]
      cases ch with
      | obj fields =>
          have : ∃ change, pyGetD (Json.obj fields) (cps "text") Json.null = .ok change ∧
              truthy change = false := by
            simp only [emptyChange] at h1
            cases hf : fieldGet fields (cps "text") with
            | none => exact ⟨Json.null, by simp [pyGetD, hf], rfl⟩
            | some v =>
                rw [hf] at h1
                cases v with
                | str s =>
                    refine ⟨Json.str s, by simp [pyGetD, hf], ?_⟩
                    simpa [truthy] using h1
                | null => exact ⟨Json.null, by simp [pyGetD, hf], rfl⟩
                | bool b => simp at h1
                | num n => simp at h1
                | arr a => simp at h1
                | obj o => simp at h1
          obtain ⟨change, hg, ht⟩ := this
          rw [hg]
          simp only [bindOkStep]
          rw [if_neg (by simp [ht])]
          simp only [bindPureStep]
          exact ih d u h2
      | null => simp [emptyChange] at h1
      | bool b => simp [emptyChange] at h1
      | num n => simp [emptyChange] at h1
      | str s => simp [emptyChange] at h1
      | arr a => simp [emptyChange] at h1

theorem didChangeFold_frame :
    ∀ (chs : List Json) (d d' : PyDict) (u : List Nat),
      (chs.foldlM (fun d ch => do
          let change ← pyGetD ch (cps "text") Json.null
          if truthy change then return dictSet d (Json.str u) change
          else return d) d : Except PyErr PyDict) = .ok d' →
      ∀ k : Json, k ≠ Json.str u → dictGet d' k = dictGet d k := by
  intro chs
  induction chs with
  | nil =>
      intro d d' u h k hk
      simp only [List.foldlM_nil] at h
      cases h
      rfl
  | cons ch rest ih =>
      intro d d' u h k hk
      rw [List.foldlM_cons] at h
      cases hg : pyGetD ch (cps "text") Json.null with
      | error e =>
          rw [hg] at h
          simp only [bindErrorStep] at h
          cases h
      | ok change =>
          rw [hg] at h
          simp only [bindOkStep] at h
          by_cases ht : truthy change = true
          · rw [if_pos ht] at h
            simp only [bindPureStep] at h
            have := ih _ _ _ h k hk
            rw [this, dictGet_dictSet_ne _ _ _ _ hk]
          · rw [if_neg ht] at h
            simp only [bindPureStep] at h
            exact ih _ _ _ h k hk

/-- C9: a `didChange` whose content changes all carry an empty or missing
`text` leaves the dirty-files table unchanged, and any `didChange` for one
URI leaves every other key's entry untouched. -/
theorem C9_empty_didChange_and_frame :
    ∀ (hs : Bool) (u : List Nat) (chs : List Json) (d d' : PyDict),
      (chs.all emptyChange = true →
        event_did_change hs (didChangeMessage u chs) d = .ok d) ∧
      (event_did_change hs (didChangeMessage u chs) d = .ok d' →
        ∀ k : Json, k ≠ Json.str u → dictGet d' k = dictGet d k) := by
  intro hs u chs d d'
  constructor
  · intro h
    rw [event_did_change_didChangeMessage]
    by_cases hc : (hs && !u.isEmpty) = true
    · rw [if_pos hc]
      exact didChangeFold_nochange chs d u h
    · rw [if_neg hc]
  · intro h k hk
    rw [event_did_change_didChangeMessage] at h
    by_cases hc : (hs && !u.isEmpty) = true
    · rw [if_pos hc] at h
      exact didChangeFold_frame chs d d' u h k hk
    · rw [if_neg hc] at h
      cases h
      rfl

/-- Witness for C9: an empty-text change leaves a concrete table intact,
and the other key's entry is unchanged. -/
theorem C9_empty_didChange_and_frame_witness :
    event_did_change true
        (didChangeMessage sampleUri [Json.obj [(cps "text", Json.str [])]])
        [(Json.str (cps "file:///other.yara"), Json.str oneRuleDoc)] =
      .ok [(Json.str (cps "file:///other.yara"), Json.str oneRuleDoc)] :=
  (C9_empty_didChange_and_frame true sampleUri
      [Json.obj [(cps "text", Json.str [])]]
      [(Json.str (cps "file:///other.yara"), Json.str oneRuleDoc)] []).1
    (by decide)

/- ### C2 -/

set_option maxRecDepth 100000 in
/-- C2: the rename guards do not guard.  With the requested new name equal
to the resolved old symbol (`$a`), the source logs "Skipping" but still
emits one `TextEdit` per reference; the edit set is not empty. -/
theorem C2_rename_guard_not_enforced :
    resolve_symbol oneRuleDoc ⟨5, 9⟩ = some (cps "$a") ∧
    provide_rename (renameMessage sampleUri 5 9 (Json.str (cps "$a"))) true
        [(Json.str sampleUri, Json.str oneRuleDoc)] (fun _ => none) =
      .ok (some (WorkspaceEdit.mk (Json.str sampleUri)
        [TextEdit.mk ⟨⟨3, 9⟩, ⟨3, 10⟩⟩ (cps "$a"),
         TextEdit.mk ⟨⟨5, 9⟩, ⟨5, 10⟩⟩ (cps "$a")])) :=
  ⟨rfl, rfl⟩

/- ### C3 -/

/-- Counterexample to C3: a well-formed definition request received before
initialization makes `provide_definition` raise a `DefinitionError`
(`symbol` is still `None` when the inner `try` subscripts it), which the
connection loop turns into a `window/showMessage` error notification —
not an empty result. -/
theorem C3_preinit_definition_raises :
    provide_definition (posMessage sampleUri 0 0) false [] (fun _ => none) =
      .error SrvErr.definitionError := rfl

/-- C3 as amended: before initialization, references, rename, hover,
highlight and completion return a null result without raising, while the
definition handler raises a `DefinitionError`. -/
theorem C3_preinit_behaviour :
    ∀ (message : Json) (dirty : PyDict) (fs : Fs) (schema : Json),
      preInitShape message = true →
      provide_definition message false dirty fs = .error .definitionError ∧
      provide_reference message false dirty fs = .ok none ∧
      provide_rename message false dirty fs = .ok none ∧
      provide_hover message false dirty fs = .ok none ∧
      provide_highlight message false = .ok none ∧
      provide_code_completion schema message false dirty fs = .ok none := by
  intro message dirty fs schema h
  cases message with
  | obj fields =>
      simp only [preInitShape] at h
      cases hp : (fieldGet fields (cps "params")).getD (Json.obj []) with
      | obj pf =>
          simp only [hp] at h
          cases ht : (fieldGet pf (cps "textDocument")).getD (Json.obj []) with
          | obj tf =>
              refine ⟨?_, ?_, ?_, ?_, ?_, ?_⟩ <;>
                simp [provide_definition, provide_definition_aux,
                      provide_reference, provide_reference_aux,
                      provide_rename, provide_rename_aux,
                      provide_hover, provide_hover_aux,
                      provide_highlight, provide_highlight_aux,
                      provide_code_completion, provide_code_completion_aux,
                      pyGetD, pyE, hp, ht, bindOkStep, mapOkStep, mapErrorStep]
          | null => simp only [ht] at h; simp at h
          | bool b => simp only [ht] at h; simp at h
          | num n => simp only [ht] at h; simp at h
          | str s => simp only [ht] at h; simp at h
          | arr a => simp only [ht] at h; simp at h
      | null => simp only [hp] at h; simp at h
      | bool b => simp only [hp] at h; simp at h
      | num n => simp only [hp] at h; simp at h
      | str s => simp only [hp] at h; simp at h
      | arr a => simp only [hp] at h; simp at h
  | null => simp [preInitShape] at h
  | bool b => simp [preInitShape] at h
  | num n => simp [preInitShape] at h
  | str s => simp [preInitShape] at h
  | arr a => simp [preInitShape] at h

/-- Witness for the amended C3 at a concrete request. -/
theorem C3_preinit_behaviour_witness :
    provide_definition (posMessage sampleUri 0 0) false [] (fun _ => none) =
        .error .definitionError ∧
    provide_reference (posMessage sampleUri 0 0) false [] (fun _ => none) = .ok none ∧
    provide_rename (posMessage sampleUri 0 0) false [] (fun _ => none) = .ok none ∧
    provide_hover (posMessage sampleUri 0 0) false [] (fun _ => none) = .ok none ∧
    provide_highlight (posMessage sampleUri 0 0) false = .ok none ∧
    provide_code_completion (Json.obj []) (posMessage sampleUri 0 0) false []
        (fun _ => none) = .ok none :=
  C3_preinit_behaviour (posMessage sampleUri 0 0) [] (fun _ => none)
    (Json.obj []) (by decide)

/- ### C4 -/

set_option maxRecDepth 100000 in
/-- Counterexample to C4: with the same rule name declared on two lines,
the definition provider returns one `Location` per declaration match —
two locations, not at most one. -/
theorem C4_two_locations :
    resolve_symbol dupRuleDoc ⟨0, 6⟩ = some (cps "foo") ∧
    provide_definition (posMessage sampleUri 0 6) true
        [(Json.str sampleUri, Json.str dupRuleDoc)] (fun _ => none) =
      .ok [⟨⟨⟨0, 5⟩, ⟨0, 8⟩⟩, sampleUri⟩, ⟨⟨⟨1, 5⟩, ⟨1, 8⟩⟩, sampleUri⟩] :=
  ⟨rfl, rfl⟩

theorem length_matchLocations (toks : List RTok) (ls : List (List Nat))
    (rel off : Nat) (uri : List Nat) :
    (matchLocations toks ls rel off uri).length = matchesCount toks ls := by
  simp only [matchLocations, matchesCount, List.length_flatMap, List.length_map,
             Function.comp_def]
  rw [show (fun p : Nat × List Nat => (findIter toks p.2).length) =
        ((fun l => (findIter toks l).length) ∘ Prod.snd) from rfl,
      ← List.map_map, List.enum_map_snd]

/-- C4 as amended: when `definitionCore` succeeds, it returns exactly one
`Location` per declaration-pattern match in the searched region; in
particular at most one whenever the pattern matches at most once. -/
theorem C4_one_location_per_match :
    ∀ (document : List Nat) (pos : Pos) (symbol : List Nat) (uri : List Nat)
      (locs : List Location),
      definitionCore document pos symbol uri = .ok locs →
      locs.length = definitionMatchCount document pos symbol ∧
      (definitionMatchCount document pos symbol ≤ 1 → locs.length ≤ 1) := by
  intro doc pos sym uri locs h
  have hlen : locs.length = definitionMatchCount doc pos sym := by
    unfold definitionCore at h
    unfold definitionMatchCount
    split at h
    · cases h
    · rename_i c0 hc0
      by_cases hvar : varchar.contains c0 = true
      · rw [if_pos hvar] at h ⊢
        cases hse : get_rule_range doc pos with
        | none => rw [hse] at h; cases h
        | some se =>
            rw [hse] at h
            cases hcomp : compileRe (cps "\\$" ++ sym.tail ++ cps " =\\s") with
            | none =>
                simp only [hcomp] at h ⊢
                injection h with h2
                subst h2
                rfl
            | some toks =>
                simp only [hcomp] at h ⊢
                injection h with h2
                subst h2
                exact length_matchLocations ..
      · rw [if_neg hvar] at h ⊢
        cases hcomp : compileRe (cps "\\brule " ++ sym ++ cps "\\b") with
        | none =>
            simp only [hcomp] at h ⊢
            injection h with h2
            subst h2
            rfl
        | some toks =>
            simp only [hcomp] at h ⊢
            injection h with h2
            subst h2
            exact length_matchLocations ..
  exact ⟨hlen, fun hle => hlen ▸ hle⟩

set_option maxRecDepth 100000 in
/-- Witness for the amended C4 at a concrete document. -/
theorem C4_one_location_per_match_witness :
    ([⟨⟨⟨3, 9⟩, ⟨3, 13⟩⟩, sampleUri⟩] : List Location).length =
        definitionMatchCount oneRuleDoc ⟨5, 9⟩ (cps "$a") ∧
    (definitionMatchCount oneRuleDoc ⟨5, 9⟩ (cps "$a") ≤ 1 →
      ([⟨⟨⟨3, 9⟩, ⟨3, 13⟩⟩, sampleUri⟩] : List Location).length ≤ 1) :=
  C4_one_location_per_match oneRuleDoc ⟨5, 9⟩ (cps "$a") sampleUri
    [⟨⟨⟨3, 9⟩, ⟨3, 13⟩⟩, sampleUri⟩] rfl

/- ### C8 -/

set_option maxRecDepth 400000 in
/-- Counterexample to C8: in a document with two rules, `$foo` (inside the
first rule) and `#foo` (inside the second) differ only in their sigil and
resolve at the given cursors, yet the definition provider returns one
location for the former and none for the latter: the rule scopes differ. -/
theorem C8_sigil_positions_differ :
    resolve_symbol twoRuleDoc ⟨5, 10⟩ = some (0x24 :: cps "foo") ∧
    resolve_symbol twoRuleDoc ⟨10, 10⟩ = some (0x23 :: cps "foo") ∧
    provide_definition (posMessage sampleUri 5 10) true
        [(Json.str sampleUri, Json.str twoRuleDoc)] (fun _ => none) =
      .ok [⟨⟨⟨3, 9⟩, ⟨3, 15⟩⟩, sampleUri⟩] ∧
    provide_definition (posMessage sampleUri 10 10) true
        [(Json.str sampleUri, Json.str twoRuleDoc)] (fun _ => none) =
      .ok [] ∧
    provide_definition (posMessage sampleUri 5 10) true
        [(Json.str sampleUri, Json.str twoRuleDoc)] (fun _ => none) ≠
      provide_definition (posMessage sampleUri 10 10) true
        [(Json.str sampleUri, Json.str twoRuleDoc)] (fun _ => none) := by
  refine ⟨rfl, rfl, rfl, rfl, ?_⟩
  intro h
  rw [show provide_definition (posMessage sampleUri 5 10) true
        [(Json.str sampleUri, Json.str twoRuleDoc)] (fun _ => none) =
      .ok [⟨⟨⟨3, 9⟩, ⟨3, 15⟩⟩, sampleUri⟩] from rfl,
      show provide_definition (posMessage sampleUri 10 10) true
        [(Json.str sampleUri, Json.str twoRuleDoc)] (fun _ => none) =
      .ok [] from rfl] at h
  cases h

theorem definitionCore_sigil_invariant :
    ∀ (doc : List Nat) (p1 p2 : Pos) (s1 s2 : Nat) (t : List Nat)
      (uri : List Nat),
      varchar.contains s1 = true → varchar.contains s2 = true →
      get_rule_range doc p1 = get_rule_range doc p2 →
      definitionCore doc p1 (s1 :: t) uri = definitionCore doc p2 (s2 :: t) uri := by
  intro doc p1 p2 s1 s2 t uri h1 h2 hr
  unfold definitionCore
  simp only [List.head?, h1, h2, if_true, hr, List.tail_cons]

theorem provide_definition_aux_posMessage (u doc : List Nat) (l c : Int)
    (fs : Fs) (hu : u.isEmpty = false) :
    provide_definition_aux (posMessage u l c) true [(Json.str u, Json.str doc)] fs =
      match resolve_symbol doc ⟨l, c⟩ with
      | none => .ok []
      | some symbol => definitionCore doc ⟨l, c⟩ symbol u := by
  have h1 : pyGetD (posMessage u l c) (cps "params") (Json.obj []) =
      .ok (Json.obj [(cps "textDocument", Json.obj [(cps "uri", Json.str u)]),
        (cps "position", Json.obj [(cps "line", Json.num l),
          (cps "character", Json.num c)])]) := rfl
  have h2 : pyGetD (Json.obj [(cps "textDocument", Json.obj [(cps "uri", Json.str u)]),
        (cps "position", Json.obj [(cps "line", Json.num l),
          (cps "character", Json.num c)])]) (cps "textDocument") (Json.obj []) =
      .ok (Json.obj [(cps "uri", Json.str u)]) := rfl
  have h3 : pyGetD (Json.obj [(cps "uri", Json.str u)]) (cps "uri") Json.null =
      .ok (Json.str u) := rfl
  have h4 : pyGetD (Json.obj [(cps "textDocument", Json.obj [(cps "uri", Json.str u)]),
        (cps "position", Json.obj [(cps "line", Json.num l),
          (cps "character", Json.num c)])]) (cps "position") (Json.obj []) =
      .ok (Json.obj [(cps "line", Json.num l), (cps "character", Json.num c)]) := rfl
  have hget : _get_document (Json.str u) [(Json.str u, Json.str doc)] fs =
      .ok (Json.str doc) := by
    have hbq : beqJson (Json.str u) (Json.str u) = true := beqJson_eq_str.mpr rfl
    simp [_get_document, dictContains, dictGet, List.find?, hbq]
  unfold provide_definition_aux
  rw [h1]
  simp only [bindOkStep]
  rw [h2]
  simp only [bindOkStep]
  rw [h3]
  simp only [bindOkStep]
  simp only [truthy, hu, Bool.not_false, Bool.and_self, if_true]
  rw [hget]
  simp only [bindOkStep, asStr]
  rw [h4]
  simp only [bindOkStep]
  have h5 : pyGetD (Json.obj [(cps "line", Json.num l),
      (cps "character", Json.num c)]) (cps "line") Json.null = .ok (Json.num l) := rfl
  have h6 : pyGetD (Json.obj [(cps "line", Json.num l),
      (cps "character", Json.num c)]) (cps "character") Json.null = .ok (Json.num c) := rfl
  rw [h5]
  simp only [bindOkStep]
  rw [h6]
  simp only [bindOkStep, pyIntOfJson]
  rfl

/-- C8 as amended: two cursor positions whose resolved symbols are
variable references differing only in their sigil *and whose enclosing
rule scopes coincide* get identical results from the definition
provider. -/
theorem C8_sigil_insensitive_same_scope :
    ∀ (u doc : List Nat) (l1 c1 l2 c2 : Int) (t : List Nat) (s1 s2 : Nat)
      (fs : Fs),
      resolve_symbol doc ⟨l1, c1⟩ = some (s1 :: t) →
      resolve_symbol doc ⟨l2, c2⟩ = some (s2 :: t) →
      varchar.contains s1 = true →
      varchar.contains s2 = true →
      get_rule_range doc ⟨l1, c1⟩ = get_rule_range doc ⟨l2, c2⟩ →
      provide_definition (posMessage u l1 c1) true
          [(Json.str u, Json.str doc)] fs =
        provide_definition (posMessage u l2 c2) true
          [(Json.str u, Json.str doc)] fs := by
  intro u doc l1 c1 l2 c2 t s1 s2 fs hr1 hr2 hs1 hs2 hrange
  cases hu : u.isEmpty with
  | true =>
      have : ∀ l c : Int, provide_definition (posMessage u l c) true
          [(Json.str u, Json.str doc)] fs = .error .definitionError := by
        intro l c
        have hemp : u = [] := by
          cases u with
          | nil => rfl
          | cons a as => simp [List.isEmpty] at hu
        subst hemp
        rfl
      rw [this, this]
  | false =>
      unfold provide_definition
      rw [provide_definition_aux_posMessage u doc l1 c1 fs hu,
          provide_definition_aux_posMessage u doc l2 c2 fs hu,
          hr1, hr2]
      dsimp only
      rw [definitionCore_sigil_invariant doc ⟨l1, c1⟩ ⟨l2, c2⟩ s1 s2 t u hs1 hs2 hrange]

set_option maxRecDepth 400000 in
/-- Witness for the amended C8: `$foo` and `#foo` inside the same rule
yield the same (one-element) location list. -/
theorem C8_sigil_insensitive_same_scope_witness :
    provide_definition (posMessage sampleUri 3 10) true
        [(Json.str sampleUri, Json.str mixedSigilDoc)] (fun _ => none) =
      provide_definition (posMessage sampleUri 5 9) true
        [(Json.str sampleUri, Json.str mixedSigilDoc)] (fun _ => none) :=
  C8_sigil_insensitive_same_scope sampleUri mixedSigilDoc 3 10 5 9
    (cps "foo") 0x24 0x23 (fun _ => none) rfl rfl rfl rfl rfl

/- ### C1: string-escape round trip -/

theorem hexVal_hexDig (d : Nat) (h : d < 16) : hexVal (hexDig d) = some d := by
  by_cases h10 : d < 10
  · have hd : hexDig d = 0x30 + d := by simp [hexDig, h10]
    rw [hd]
    unfold hexVal
    rw [if_pos (by omega)]
    simp only [Option.some.injEq]
    omega
  · have hd : hexDig d = 0x61 + (d - 10) := by simp [hexDig, h10]
    rw [hd]
    unfold hexVal
    rw [if_neg (by omega), if_neg (by omega), if_pos (by omega)]
    simp only [Option.some.injEq]
    omega

theorem hex4_recompose (n : Nat) (h : n < 0x10000) :
    ((n / 4096 % 16 * 16 + n / 256 % 16) * 16 + n / 16 % 16) * 16 + n % 16 = n := by
  omega

theorem parseStrBody_uescape (fuel : Nat) (n : Nat) (hn : n < 0x10000)
    (hns : ¬(0xD800 ≤ n ∧ n < 0xDC00)) (tail : List Nat) :
    parseStrBody (fuel + 1) (escUHex n ++ tail) =
      (parseStrBody fuel tail).map (fun p => (n :: p.1, p.2)) := by
  have hd1 : hexVal (hexDig (n / 4096 % 16)) = some (n / 4096 % 16) :=
    hexVal_hexDig _ (Nat.mod_lt _ (by omega))
  have hd2 : hexVal (hexDig (n / 256 % 16)) = some (n / 256 % 16) :=
    hexVal_hexDig _ (Nat.mod_lt _ (by omega))
  have hd3 : hexVal (hexDig (n / 16 % 16)) = some (n / 16 % 16) :=
    hexVal_hexDig _ (Nat.mod_lt _ (by omega))
  have hd4 : hexVal (hexDig (n % 16)) = some (n % 16) :=
    hexVal_hexDig _ (Nat.mod_lt _ (by omega))
  show parseStrBody (fuel + 1)
      (0x5C :: 0x75 :: hexDig (n / 4096 % 16) :: hexDig (n / 256 % 16) ::
       hexDig (n / 16 % 16) :: hexDig (n % 16) :: tail) = _
  simp only [parseStrBody, hd1, hd2, hd3, hd4]
  norm_num
  rw [hex4_recompose n hn, if_neg hns]

theorem parseStrBody_u6 (fuel : Nat) (a b c d : Nat) (x y z w : Nat)
    (ha : hexVal a = some x) (hb : hexVal b = some y) (hc : hexVal c = some z)
    (hd : hexVal d = some w)
    (hns : ¬(0xD800 ≤ ((x * 16 + y) * 16 + z) * 16 + w ∧
             ((x * 16 + y) * 16 + z) * 16 + w < 0xDC00)) (tail : List Nat) :
    parseStrBody (fuel + 1) (0x5C :: 0x75 :: a :: b :: c :: d :: tail) =
      (parseStrBody fuel tail).map
        (fun p => ((((x * 16 + y) * 16 + z) * 16 + w) :: p.1, p.2)) := by
  simp only [parseStrBody, ha, hb, hc, hd, if_true, if_false]
  rw [if_neg hns]
  norm_num
theorem parseStrBody_u12 (fuel : Nat)
    (a b c d a2 b2 c2 d2 x y z w x2 y2 z2 w2 : Nat)
    (ha : hexVal a = some x) (hb : hexVal b = some y) (hc : hexVal c = some z)
    (hd : hexVal d = some w)
    (ha2 : hexVal a2 = some x2) (hb2 : hexVal b2 = some y2)
    (hc2 : hexVal c2 = some z2) (hd2 : hexVal d2 = some w2)
    (hn : 0xD800 ≤ ((x * 16 + y) * 16 + z) * 16 + w ∧
          ((x * 16 + y) * 16 + z) * 16 + w < 0xDC00)
    (hm : 0xDC00 ≤ ((x2 * 16 + y2) * 16 + z2) * 16 + w2 ∧
          ((x2 * 16 + y2) * 16 + z2) * 16 + w2 < 0xE000)
    (tail : List Nat) :
    parseStrBody (fuel + 1)
      (0x5C :: 0x75 :: a :: b :: c :: d :: 0x5C :: 0x75 :: a2 :: b2 :: c2 :: d2 :: tail) =
      (parseStrBody fuel tail).map (fun p =>
        ((0x10000 + ((((x * 16 + y) * 16 + z) * 16 + w) - 0xD800) * 0x400 +
          ((((x2 * 16 + y2) * 16 + z2) * 16 + w2) - 0xDC00)) :: p.1, p.2)) := by
  simp only [parseStrBody, ha, hb, hc, hd, ha2, hb2, hc2, hd2, if_true, if_false]
  rw [if_pos hn, if_pos hm]
  norm_num
set_option maxRecDepth 8000 in
theorem parseStrBody_pair (fuel : Nat) (c : Nat) (h1 : 0x10000 ≤ c)
    (h2 : c < 0x110000) (tail : List Nat) :
    parseStrBody (fuel + 1)
      (escUHex (0xD800 + (c - 0x10000) / 0x400) ++
       (escUHex (0xDC00 + (c - 0x10000) % 0x400) ++ tail)) =
      (parseStrBody fuel tail).map (fun p => (c :: p.1, p.2)) := by
  have e1 := hexVal_hexDig ((0xD800 + (c - 0x10000) / 0x400) / 4096 % 16)
    (Nat.mod_lt _ (by omega))
  have e2 := hexVal_hexDig ((0xD800 + (c - 0x10000) / 0x400) / 256 % 16)
    (Nat.mod_lt _ (by omega))
  have e3 := hexVal_hexDig ((0xD800 + (c - 0x10000) / 0x400) / 16 % 16)
    (Nat.mod_lt _ (by omega))
  have e4 := hexVal_hexDig ((0xD800 + (c - 0x10000) / 0x400) % 16)
    (Nat.mod_lt _ (by omega))
  have f1 := hexVal_hexDig ((0xDC00 + (c - 0x10000) % 0x400) / 4096 % 16)
    (Nat.mod_lt _ (by omega))
  have f2 := hexVal_hexDig ((0xDC00 + (c - 0x10000) % 0x400) / 256 % 16)
    (Nat.mod_lt _ (by omega))
  have f3 := hexVal_hexDig ((0xDC00 + (c - 0x10000) % 0x400) / 16 % 16)
    (Nat.mod_lt _ (by omega))
  have f4 := hexVal_hexDig ((0xDC00 + (c - 0x10000) % 0x400) % 16)
    (Nat.mod_lt _ (by omega))
  show parseStrBody (fuel + 1)
      (0x5C :: 0x75 ::
       hexDig ((0xD800 + (c - 0x10000) / 0x400) / 4096 % 16) ::
       hexDig ((0xD800 + (c - 0x10000) / 0x400) / 256 % 16) ::
       hexDig ((0xD800 + (c - 0x10000) / 0x400) / 16 % 16) ::
       hexDig ((0xD800 + (c - 0x10000) / 0x400) % 16) ::
       (0x5C :: 0x75 ::
        hexDig ((0xDC00 + (c - 0x10000) % 0x400) / 4096 % 16) ::
        hexDig ((0xDC00 + (c - 0x10000) % 0x400) / 256 % 16) ::
        hexDig ((0xDC00 + (c - 0x10000) % 0x400) / 16 % 16) ::
        hexDig ((0xDC00 + (c - 0x10000) % 0x400) % 16) :: tail)) = _
  rw [parseStrBody_u12 fuel _ _ _ _ _ _ _ _ _ _ _ _ _ _ _ _
      e1 e2 e3 e4 f1 f2 f3 f4 (by omega) (by omega) tail]
  have hc : 0x10000 + ((((0xD800 + (c - 0x10000) / 0x400) / 4096 % 16 * 16 + (0xD800 + (c - 0x10000) / 0x400) / 256 % 16) * 16 + (0xD800 + (c - 0x10000) / 0x400) / 16 % 16) * 16 + (0xD800 + (c - 0x10000) / 0x400) % 16 - 0xD800) * 0x400 + ((((0xDC00 + (c - 0x10000) % 0x400) / 4096 % 16 * 16 + (0xDC00 + (c - 0x10000) % 0x400) / 256 % 16) * 16 + (0xDC00 + (c - 0x10000) % 0x400) / 16 % 16) * 16 + (0xDC00 + (c - 0x10000) % 0x400) % 16 - 0xDC00) = c := by omega
  rw [hc]


/- Auxiliary list lemmas for the round trip. -/

theorem dropWhile_eq_self_of_head (p : Nat → Bool) (l : List Nat)
    (h : ∀ c, l.head? = some c → p c = false) : l.dropWhile p = l := by
  cases l with
  | nil => rfl
  | cons c t =>
      rw [List.dropWhile_cons_of_neg]
      simp [h c rfl]

theorem takeWhile_all_append (p : Nat → Bool) (l r : List Nat)
    (hl : l.all p = true) (hr : ∀ c, r.head? = some c → p c = false) :
    (l ++ r).takeWhile p = l ∧ (l ++ r).dropWhile p = r := by
  induction l with
  | nil =>
      refine ⟨?_, ?_⟩
      · simp only [List.nil_append]
        cases r with
        | nil => rfl
        | cons c t => rw [List.takeWhile_cons_of_neg]; simp [hr c rfl]
      · simp only [List.nil_append]
        exact dropWhile_eq_self_of_head p r hr
  | cons c t ih =>
      simp only [List.all_cons, Bool.and_eq_true] at hl
      obtain ⟨ih1, ih2⟩ := ih hl.2
      refine ⟨?_, ?_⟩
      · rw [List.cons_append, List.takeWhile_cons_of_pos (by simp [hl.1]), ih1]
      · rw [List.cons_append, List.dropWhile_cons_of_pos (by simp [hl.1]), ih2]

theorem splitOnCp_no_sep (sep : Nat) (b : List Nat)
    (h : b.all (fun c => !(c == sep)) = true) : splitOnCp sep b = [b] := by
  induction b with
  | nil => rfl
  | cons c t ih =>
      simp only [List.all_cons, Bool.and_eq_true] at h
      rw [splitOnCp, ih h.2]
      have : c ≠ sep := by simpa using h.1
      simp [this]

theorem splitOnCp_single (sep : Nat) (a b : List Nat)
    (ha : a.all (fun c => !(c == sep)) = true)
    (hb : b.all (fun c => !(c == sep)) = true) :
    splitOnCp sep (a ++ sep :: b) = [a, b] := by
  induction a with
  | nil =>
      simp only [List.nil_append]
      rw [splitOnCp, splitOnCp_no_sep sep b hb]
      simp
  | cons c t ih =>
      simp only [List.all_cons, Bool.and_eq_true] at ha
      rw [List.cons_append, splitOnCp, ih ha.2]
      have : c ≠ sep := by simpa using ha.1
      simp [this]


/- Decimal-digit round trip. -/

theorem natDigitsLE_digits (fuel n : Nat) :
    (natDigitsLE fuel n).all isDigitCp = true := by
  induction fuel generalizing n with
  | zero => rfl
  | succ fuel ih =>
      cases n with
      | zero => rfl
      | succ k =>
          rw [natDigitsLE]
          simp only [List.all_cons, Bool.and_eq_true]
          refine ⟨?_, ih _⟩
          simp only [isDigitCp, Bool.and_eq_true, decide_eq_true_eq]
          omega

theorem natDigitsLE_val (fuel n : Nat) (h : n ≤ fuel) :
    digitsToNat ((natDigitsLE fuel n).reverse) = n := by
  induction fuel generalizing n with
  | zero =>
      interval_cases n
      rfl
  | succ fuel ih =>
      cases n with
      | zero => rfl
      | succ k =>
          rw [natDigitsLE]
          have hrec : (k + 1) / 10 ≤ fuel := by
            have := Nat.div_lt_self (Nat.succ_pos k) (by omega : 1 < 10)
            omega
          have ihv := ih ((k + 1) / 10) hrec
          simp only [digitsToNat, List.reverse_cons, List.foldl_append,
            List.foldl_cons, List.foldl_nil] at ihv ⊢
          rw [ihv]
          omega

theorem natDecCps_digits (n : Nat) : (natDecCps n).all isDigitCp = true := by
  by_cases h : n = 0
  · subst h; rfl
  · rw [natDecCps, if_neg h]
    rw [List.all_reverse]
    exact natDigitsLE_digits n n

theorem natDecCps_ne_nil (n : Nat) : natDecCps n ≠ [] := by
  by_cases h : n = 0
  · subst h; simp [natDecCps]
  · rw [natDecCps, if_neg h]
    simp only [ne_eq, List.reverse_eq_nil_iff]
    obtain ⟨k, rfl⟩ := Nat.exists_eq_succ_of_ne_zero h
    rw [natDigitsLE]
    simp

theorem natDecCps_val (n : Nat) : digitsToNat (natDecCps n) = n := by
  by_cases h : n = 0
  · subst h; rfl
  · rw [natDecCps, if_neg h]
    exact natDigitsLE_val n n le_rfl


theorem parseNum_rt (i : Int) (rest : List Nat)
    (hr : ∀ c, rest.head? = some c → isDigitCp c = false) :
    parseNum (intDecCps i ++ rest) = some (i, rest) := by
  by_cases hneg : i < 0
  · rw [intDecCps, if_pos hneg, List.cons_append, parseNum, if_pos rfl]
    obtain ⟨htw, hdw⟩ := takeWhile_all_append isDigitCp (natDecCps i.natAbs) rest
      (natDecCps_digits _) hr
    rw [htw, hdw]
    have hne : (natDecCps i.natAbs).isEmpty = false := by
      cases h : natDecCps i.natAbs with
      | nil => exact absurd h (natDecCps_ne_nil _)
      | cons a b => rfl
    rw [if_neg (by simp [hne])]
    rw [natDecCps_val]
    have : -((i.natAbs : Nat) : Int) = i := by omega
    rw [this]
  · rw [intDecCps, if_neg hneg]
    obtain ⟨d, ds, hds⟩ := List.exists_cons_of_ne_nil (natDecCps_ne_nil i.toNat)
    have hall := natDecCps_digits i.toNat
    rw [hds] at hall ⊢
    simp only [List.all_cons, Bool.and_eq_true] at hall
    have hd45 : d ≠ 0x2D := by
      simp only [isDigitCp, Bool.and_eq_true, decide_eq_true_eq] at hall
      omega
    rw [List.cons_append, parseNum, if_neg hd45]
    obtain ⟨htw, hdw⟩ := takeWhile_all_append isDigitCp (d :: ds) rest
      (by simp [hall.1, hall.2]) hr
    rw [List.cons_append] at htw hdw
    rw [htw, hdw]
    rw [if_neg (by simp)]
    have hv : digitsToNat (d :: ds) = i.toNat := by rw [← hds]; exact natDecCps_val _
    rw [hv]
    have : ((i.toNat : Nat) : Int) = i := by omega
    rw [this]


theorem ws_not_digit (c : Nat) (hc : isDigitCp c = true) :
    ([0x20, 0x09, 0x0A, 0x0D, 0x0B, 0x0C] : List Nat).contains c = false := by
  simp only [isDigitCp, Bool.and_eq_true, decide_eq_true_eq] at hc
  simp only [List.contains, List.elem_eq_mem, decide_eq_false_iff_not,
    List.mem_cons, List.mem_singleton, not_or, List.not_mem_nil,
    not_false_eq_true, and_true]
  omega

theorem pyParseIntStr_digits (l : List Nat) (h : l.all isDigitCp = true)
    (hne : l ≠ []) : pyParseIntStr l = some ((digitsToNat l : Nat) : Int) := by
  have hws : ∀ c ∈ l,
      ([0x20, 0x09, 0x0A, 0x0D, 0x0B, 0x0C] : List Nat).contains c = false := by
    intro c hc
    exact ws_not_digit c (by rw [List.all_eq_true] at h; exact h c hc)
  simp only [pyParseIntStr]
  rw [dropWhile_eq_self_of_head _ l (by
    intro c hc
    exact hws c (List.mem_of_mem_head? (by rw [hc]; simp)))]
  rw [dropWhile_eq_self_of_head _ l.reverse (by
    intro c hc
    rw [List.head?_reverse] at hc
    exact hws c (List.mem_of_getLast?_eq_some hc))]
  rw [List.reverse_reverse]
  obtain ⟨d, ds, rfl⟩ := List.exists_cons_of_ne_nil hne
  have hall : ∀ c ∈ d :: ds, isDigitCp c = true := by
    rw [← List.all_eq_true]; exact h
  have hd := hall d (by simp)
  simp only [isDigitCp, Bool.and_eq_true, decide_eq_true_eq] at hd
  have hcond : ¬((d :: ds : List Nat) = [] ∨
      ¬ (d :: ds).all (fun c => 0x30 ≤ c ∧ c ≤ 0x39) = true) := by
    push_neg
    refine ⟨by simp, ?_⟩
    rw [List.all_eq_true]
    intro c hc
    have := hall c hc
    simp only [isDigitCp, Bool.and_eq_true, decide_eq_true_eq] at this
    simp only [decide_eq_true_eq]
    omega
  obtain ⟨d1, d2⟩ := hd
  interval_cases d <;>
    · split
      all_goals try (rename_i heq; simp at heq)
      all_goals rw [if_neg hcond]; rfl


/- One-character reductions of the string parser. -/

theorem parseStrBody_shortEsc (f e c0 : Nat) (he : escDecode e = some c0)
    (he75 : e ≠ 0x75) (tail : List Nat) :
    parseStrBody (f + 1) (0x5C :: e :: tail) =
      (parseStrBody f tail).map (fun p => (c0 :: p.1, p.2)) := by
  simp only [parseStrBody, he]
  rw [if_neg he75]
  norm_num

theorem parseStrBody_verbatim (f c : Nat) (h34 : c ≠ 0x22) (h92 : c ≠ 0x5C)
    (hctl : ¬(c < 0x20)) (tail : List Nat) :
    parseStrBody (f + 1) (c :: tail) =
      (parseStrBody f tail).map (fun p => (c :: p.1, p.2)) := by
  simp only [parseStrBody]
  rw [if_neg h34, if_neg h92, if_neg (by simpa using hctl)]

/- The full escape/parse round trip for one well-formed string. -/

theorem strRT (s : List Nat) : ∀ fuel rest, s.all wfScalar = true →
    s.length ≤ fuel →
    parseStrBody (fuel + 1) (s.flatMap escChar ++ 0x22 :: rest) =
      some (s, rest) := by
  induction s with
  | nil =>
      intro fuel rest _ _
      rw [List.flatMap_nil, List.nil_append]
      simp only [parseStrBody]
      norm_num
  | cons c s' ih =>
      intro fuel rest hwf hlen
      simp only [List.all_cons, Bool.and_eq_true] at hwf
      simp only [List.length_cons] at hlen
      obtain ⟨f, rfl⟩ : ∃ f, fuel = f + 1 := ⟨fuel - 1, by omega⟩
      have hlen' : s'.length ≤ f := by omega
      have hIH := ih f rest hwf.2 hlen'
      rw [List.flatMap_cons, List.append_assoc]
      have hwfc := hwf.1
      simp only [wfScalar, Bool.or_eq_true, Bool.and_eq_true,
        decide_eq_true_eq] at hwfc
      by_cases h1 : c = 0x22
      · subst h1
        rw [show escChar 0x22 = [0x5C, 0x22] from rfl]
        simp only [List.cons_append, List.nil_append]
        rw [parseStrBody_shortEsc (f + 1) 0x22 0x22 rfl (by norm_num), hIH]
        rfl
      by_cases h2 : c = 0x5C
      · subst h2
        rw [show escChar 0x5C = [0x5C, 0x5C] from rfl]
        simp only [List.cons_append, List.nil_append]
        rw [parseStrBody_shortEsc (f + 1) 0x5C 0x5C rfl (by norm_num), hIH]
        rfl
      by_cases h3 : c = 0x0A
      · subst h3
        rw [show escChar 0x0A = [0x5C, 0x6E] from rfl]
        simp only [List.cons_append, List.nil_append]
        rw [parseStrBody_shortEsc (f + 1) 0x6E 0x0A rfl (by norm_num), hIH]
        rfl
      by_cases h4 : c = 0x0D
      · subst h4
        rw [show escChar 0x0D = [0x5C, 0x72] from rfl]
        simp only [List.cons_append, List.nil_append]
        rw [parseStrBody_shortEsc (f + 1) 0x72 0x0D rfl (by norm_num), hIH]
        rfl
      by_cases h5 : c = 0x09
      · subst h5
        rw [show escChar 0x09 = [0x5C, 0x74] from rfl]
        simp only [List.cons_append, List.nil_append]
        rw [parseStrBody_shortEsc (f + 1) 0x74 0x09 rfl (by norm_num), hIH]
        rfl
      by_cases h6 : c = 0x08
      · subst h6
        rw [show escChar 0x08 = [0x5C, 0x62] from rfl]
        simp only [List.cons_append, List.nil_append]
        rw [parseStrBody_shortEsc (f + 1) 0x62 0x08 rfl (by norm_num), hIH]
        rfl
      by_cases h7 : c = 0x0C
      · subst h7
        rw [show escChar 0x0C = [0x5C, 0x66] from rfl]
        simp only [List.cons_append, List.nil_append]
        rw [parseStrBody_shortEsc (f + 1) 0x66 0x0C rfl (by norm_num), hIH]
        rfl
      by_cases h8 : c < 0x20
      · have hesc : escChar c = escUHex c := by
          rw [escChar, if_neg h1, if_neg h2, if_neg h3, if_neg h4, if_neg h5,
            if_neg h6, if_neg h7, if_pos h8]
        rw [hesc, parseStrBody_uescape (f + 1) c (by omega) (by omega), hIH]
        rfl
      by_cases h9 : c < 0x7F
      · have hesc : escChar c = [c] := by
          rw [escChar, if_neg h1, if_neg h2, if_neg h3, if_neg h4, if_neg h5,
            if_neg h6, if_neg h7, if_neg h8, if_pos h9]
        rw [hesc]
        simp only [List.cons_append, List.nil_append]
        rw [parseStrBody_verbatim (f + 1) c h1 h2 h8, hIH]
        rfl
      by_cases h10 : c < 0x10000
      · have hesc : escChar c = escUHex c := by
          rw [escChar, if_neg h1, if_neg h2, if_neg h3, if_neg h4, if_neg h5,
            if_neg h6, if_neg h7, if_neg h8, if_neg h9, if_pos h10]
        have hns : ¬(0xD800 ≤ c ∧ c < 0xDC00) := by omega
        rw [hesc, parseStrBody_uescape (f + 1) c h10 hns, hIH]
        rfl
      · have hesc : escChar c =
            escUHex (0xD800 + (c - 0x10000) / 0x400) ++
            escUHex (0xDC00 + (c - 0x10000) % 0x400) := by
          rw [escChar, if_neg h1, if_neg h2, if_neg h3, if_neg h4, if_neg h5,
            if_neg h6, if_neg h7, if_neg h8, if_neg h9, if_neg h10]
        rw [hesc, List.append_assoc,
          parseStrBody_pair (f + 1) c (by omega) (by omega), hIH]
        rfl


/- Size measure driving the parser fuel. -/

mutual

def sizeJ : Json → Nat
  | .null => 1
  | .bool _ => 1
  | .num _ => 1
  | .str _ => 1
  | .arr xs => sizeE xs + 1
  | .obj fs => sizeF fs + 1

def sizeE : List Json → Nat
  | [] => 0
  | x :: xs => sizeJ x + sizeE xs + 1

def sizeF : List (List Nat × Json) → Nat
  | [] => 0
  | (_, v) :: fs => sizeJ v + sizeF fs + 1

end

theorem sizeJ_pos (v : Json) : 1 ≤ sizeJ v := by
  cases v <;> simp [sizeJ] <;> omega

theorem escChar_ne_nil (c : Nat) : 1 ≤ (escChar c).length := by
  rw [escChar]
  by_cases h1 : c = 0x22
  · rw [if_pos h1]; simp [escUHex]
  rw [if_neg h1]
  by_cases h2 : c = 0x5C
  · rw [if_pos h2]; simp [escUHex]
  rw [if_neg h2]
  by_cases h3 : c = 0x0A
  · rw [if_pos h3]; simp [escUHex]
  rw [if_neg h3]
  by_cases h4 : c = 0x0D
  · rw [if_pos h4]; simp [escUHex]
  rw [if_neg h4]
  by_cases h5 : c = 0x09
  · rw [if_pos h5]; simp [escUHex]
  rw [if_neg h5]
  by_cases h6 : c = 0x08
  · rw [if_pos h6]; simp [escUHex]
  rw [if_neg h6]
  by_cases h7 : c = 0x0C
  · rw [if_pos h7]; simp [escUHex]
  rw [if_neg h7]
  by_cases h8 : c < 0x20
  · rw [if_pos h8]; simp [escUHex]
  rw [if_neg h8]
  by_cases h9 : c < 0x7F
  · rw [if_pos h9]; simp [escUHex]
  rw [if_neg h9]
  by_cases h10 : c < 0x10000
  · rw [if_pos h10]; simp [escUHex]
  rw [if_neg h10]
  simp [escUHex]

theorem flatMap_escChar_len (s : List Nat) :
    s.length ≤ (s.flatMap escChar).length := by
  induction s with
  | nil => simp
  | cons c t ih =>
      rw [List.flatMap_cons, List.length_append, List.length_cons]
      have := escChar_ne_nil c
      omega

/-- First character class of a serialized value. -/
theorem dumps_head (v : Json) : ∃ c t, dumps v = c :: t ∧
    (c = 0x22 ∨ c = 0x5B ∨ c = 0x7B ∨ c = 0x6E ∨ c = 0x74 ∨ c = 0x66 ∨
     c = 0x2D ∨ isDigitCp c = true) := by
  cases v with
  | null => exact ⟨0x6E, _, rfl, by omega⟩
  | bool b =>
      cases b with
      | true => exact ⟨0x74, _, rfl, by omega⟩
      | false => exact ⟨0x66, _, rfl, by omega⟩
  | num n =>
      show ∃ c t, intDecCps n = c :: t ∧ _
      by_cases hn : n < 0
      · rw [intDecCps, if_pos hn]
        exact ⟨0x2D, _, rfl, by omega⟩
      · rw [intDecCps, if_neg hn]
        obtain ⟨d, ds, hds⟩ := List.exists_cons_of_ne_nil (natDecCps_ne_nil n.toNat)
        have hall := natDecCps_digits n.toNat
        rw [hds] at hall
        simp only [List.all_cons, Bool.and_eq_true] at hall
        exact ⟨d, ds, hds, by simp [hall.1]⟩
  | str s => exact ⟨0x22, _, rfl, by omega⟩
  | arr xs => exact ⟨0x5B, _, rfl, by omega⟩
  | obj fs => exact ⟨0x7B, _, rfl, by omega⟩

theorem dumps_head_not (v : Json) (b : Nat)
    (hb : b = 0x5D ∨ b = 0x7D ∨ b = 0x20 ∨ b = 0x09 ∨ b = 0x0A ∨ b = 0x0D) :
    (dumps v).head? ≠ some b := by
  obtain ⟨c, t, hct, hc⟩ := dumps_head v
  rw [hct]
  simp only [List.head?_cons, ne_eq, Option.some.injEq]
  rcases hc with h | h | h | h | h | h | h | h
  all_goals try omega
  simp only [isDigitCp, Bool.and_eq_true, decide_eq_true_eq] at h
  omega


/- arr/obj serialized bodies start with the first element. -/

theorem dumpsArr_shape (x : Json) (xs : List Json) :
    ∃ t, dumpsArr (x :: xs) = dumps x ++ t := by
  cases xs with
  | nil => exact ⟨[], by simp [dumpsArr]⟩
  | cons y ys => exact ⟨[0x2C, 0x20] ++ dumpsArr (y :: ys), by simp [dumpsArr]⟩


theorem parseVal_null (fuel : Nat) (rest : List Nat) :
    parseVal (fuel + 1) (dumps Json.null ++ rest) = some (Json.null, rest) := by
  show parseVal (fuel + 1) (0x6E :: 0x75 :: 0x6C :: 0x6C :: rest) = _
  simp only [parseVal]
  rw [if_neg (by norm_num : ¬(0x6E:Nat) = 0x22),
      if_neg (by norm_num : ¬(0x6E:Nat) = 0x5B),
      if_neg (by norm_num : ¬(0x6E:Nat) = 0x7B),
      if_pos True.intro,
      if_pos (show (cps "ull").isPrefixOf (0x75 :: 0x6C :: 0x6C :: rest) = true by
        rw [show cps "ull" = [0x75, 0x6C, 0x6C] from rfl]
        simp [List.isPrefixOf])]
  rfl

theorem parseVal_true (fuel : Nat) (rest : List Nat) :
    parseVal (fuel + 1) (dumps (Json.bool true) ++ rest) =
      some (Json.bool true, rest) := by
  show parseVal (fuel + 1) (0x74 :: 0x72 :: 0x75 :: 0x65 :: rest) = _
  simp only [parseVal]
  rw [if_neg (by norm_num : ¬(0x74:Nat) = 0x22),
      if_neg (by norm_num : ¬(0x74:Nat) = 0x5B),
      if_neg (by norm_num : ¬(0x74:Nat) = 0x7B),
      if_neg (by norm_num : ¬(0x74:Nat) = 0x6E),
      if_pos True.intro,
      if_pos (show (cps "rue").isPrefixOf (0x72 :: 0x75 :: 0x65 :: rest) = true by
        rw [show cps "rue" = [0x72, 0x75, 0x65] from rfl]
        simp [List.isPrefixOf])]
  rfl

theorem parseVal_false (fuel : Nat) (rest : List Nat) :
    parseVal (fuel + 1) (dumps (Json.bool false) ++ rest) =
      some (Json.bool false, rest) := by
  show parseVal (fuel + 1) (0x66 :: 0x61 :: 0x6C :: 0x73 :: 0x65 :: rest) = _
  simp only [parseVal]
  rw [if_neg (by norm_num : ¬(0x66:Nat) = 0x22),
      if_neg (by norm_num : ¬(0x66:Nat) = 0x5B),
      if_neg (by norm_num : ¬(0x66:Nat) = 0x7B),
      if_neg (by norm_num : ¬(0x66:Nat) = 0x6E),
      if_neg (by norm_num : ¬(0x66:Nat) = 0x74),
      if_pos True.intro,
      if_pos (show (cps "alse").isPrefixOf (0x61 :: 0x6C :: 0x73 :: 0x65 :: rest) = true by
        rw [show cps "alse" = [0x61, 0x6C, 0x73, 0x65] from rfl]
        simp [List.isPrefixOf])]
  rfl

theorem parseVal_arrNil (fuel : Nat) (rest : List Nat) :
    parseVal (fuel + 1) (dumps (Json.arr []) ++ rest) =
      some (Json.arr [], rest) := by
  show parseVal (fuel + 1) (0x5B :: 0x5D :: rest) = _
  simp only [parseVal]
  rw [if_neg (by norm_num : ¬(0x5B:Nat) = 0x22),
      if_pos True.intro,
      if_pos (show (0x5D :: rest).head? = some 0x5D from rfl)]
  rfl

theorem parseVal_objNil (fuel : Nat) (rest : List Nat) :
    parseVal (fuel + 1) (dumps (Json.obj []) ++ rest) =
      some (Json.obj [], rest) := by
  show parseVal (fuel + 1) (0x7B :: 0x7D :: rest) = _
  simp only [parseVal]
  rw [if_neg (by norm_num : ¬(0x7B:Nat) = 0x22),
      if_neg (by norm_num : ¬(0x7B:Nat) = 0x5B),
      if_pos True.intro,
      if_pos (show (0x7D :: rest).head? = some 0x7D from rfl)]
  rfl

theorem parseRT_all : ∀ N : Nat,
    (∀ v, sizeJ v ≤ N → wfJson v = true → ∀ fuel rest,
      (∀ c, rest.head? = some c → isDigitCp c = false) →
      parseVal (sizeJ v + fuel) (dumps v ++ rest) = some (v, rest)) ∧
    (∀ l, l ≠ [] → sizeE l ≤ N → wfJsonList l = true → ∀ fuel rest,
      parseElems (sizeE l + fuel) (dumpsArr l ++ 0x5D :: rest) = some (l, rest)) ∧
    (∀ fs, fs ≠ [] → sizeF fs ≤ N → wfJsonFields fs = true → ∀ fuel rest,
      parseFields (sizeF fs + fuel) (dumpsObj fs ++ 0x7D :: rest) =
        some (fs, rest)) := by
  intro N
  induction N with
  | zero =>
      refine ⟨?_, ?_, ?_⟩
      · intro v hsz
        exact absurd hsz (by have := sizeJ_pos v; omega)
      · intro l hne hsz
        cases l with
        | nil => exact absurd rfl hne
        | cons x xs =>
            exact absurd hsz (by simp only [sizeE]; omega)
      · intro fs hne hsz
        cases fs with
        | nil => exact absurd rfl hne
        | cons f fs =>
            obtain ⟨k, v⟩ := f
            exact absurd hsz (by simp only [sizeF]; omega)
  | succ N ih =>
      refine ⟨?_, ?_, ?_⟩
      · -- parseVal
        intro v hsz hwf fuel rest hrest
        cases v with
        | null =>
            rw [show sizeJ Json.null + fuel = fuel + 1 from by
              simp only [sizeJ]; omega]
            exact parseVal_null fuel rest
        | bool b =>
            rw [show sizeJ (Json.bool b) + fuel = fuel + 1 from by
              simp only [sizeJ]; omega]
            cases b
            · exact parseVal_false fuel rest
            · exact parseVal_true fuel rest
        | num n =>
            rw [show sizeJ (Json.num n) + fuel = fuel + 1 from by
              simp only [sizeJ]; omega]
            show parseVal (fuel + 1) (intDecCps n ++ rest) = some (Json.num n, rest)
            have hd : ∃ d ds, intDecCps n = d :: ds ∧
                (d = 0x2D ∨ (0x30 ≤ d ∧ d ≤ 0x39)) := by
              by_cases hn : n < 0
              · exact ⟨0x2D, natDecCps n.natAbs, by rw [intDecCps, if_pos hn],
                  Or.inl rfl⟩
              · obtain ⟨d, ds, hds⟩ :=
                  List.exists_cons_of_ne_nil (natDecCps_ne_nil n.toNat)
                have hall := natDecCps_digits n.toNat
                rw [hds] at hall
                simp only [List.all_cons, Bool.and_eq_true, isDigitCp,
                  decide_eq_true_eq] at hall
                exact ⟨d, ds, by rw [intDecCps, if_neg hn, hds],
                  Or.inr hall.1⟩
            obtain ⟨d, ds, hds, hdc⟩ := hd
            rw [hds, List.cons_append]
            simp only [parseVal]
            rw [if_neg (show ¬ d = 0x22 by omega),
              if_neg (show ¬ d = 0x5B by omega),
              if_neg (show ¬ d = 0x7B by omega),
              if_neg (show ¬ d = 0x6E by omega),
              if_neg (show ¬ d = 0x74 by omega),
              if_neg (show ¬ d = 0x66 by omega)]
            rw [← List.cons_append, ← hds, parseNum_rt n rest hrest]
            rfl
        | str s =>
            rw [show sizeJ (Json.str s) + fuel = fuel + 1 from by
              simp only [sizeJ]; omega]
            show parseVal (fuel + 1) (dumpsStr s ++ rest) = some (Json.str s, rest)
            have hshape : dumpsStr s ++ rest =
                0x22 :: (s.flatMap escChar ++ 0x22 :: rest) := by
              simp [dumpsStr]
            rw [hshape]
            simp only [parseVal]
            rw [if_pos True.intro]
            simp only [parseStr]
            have hwf' : s.all wfScalar = true := by
              simpa only [wfJson] using hwf
            have hlen : s.length ≤ (s.flatMap escChar ++ 0x22 :: rest).length := by
              rw [List.length_append]
              have := flatMap_escChar_len s
              simp only [List.length_cons]
              omega
            rw [strRT s _ rest hwf' hlen]
            rfl
        | arr l =>
            cases l with
            | nil =>
                rw [show sizeJ (Json.arr []) + fuel = fuel + 1 from by
                  simp only [sizeJ, sizeE]; omega]
                exact parseVal_arrNil fuel rest
            | cons x xs =>
                have hwf' : wfJsonList (x :: xs) = true := by
                  simpa only [wfJson] using hwf
                have hszE : sizeE (x :: xs) ≤ N := by
                  simp only [sizeJ] at hsz; omega
                rw [show sizeJ (Json.arr (x :: xs)) + fuel =
                    (sizeE (x :: xs) + fuel) + 1 from by
                  simp only [sizeJ]; omega]
                have hshape : dumps (Json.arr (x :: xs)) ++ rest =
                    0x5B :: (dumpsArr (x :: xs) ++ 0x5D :: rest) := by
                  show (0x5B :: dumpsArr (x :: xs) ++ [0x5D]) ++ rest = _
                  simp
                rw [hshape]
                simp only [parseVal]
                have hhd : ¬ ((dumpsArr (x :: xs) ++ 0x5D :: rest).head? =
                    some 0x5D) := by
                  obtain ⟨t, ht⟩ := dumpsArr_shape x xs
                  obtain ⟨c, t2, hct, hc⟩ := dumps_head x
                  rw [ht, hct]
                  simp only [List.cons_append, List.head?_cons, ne_eq,
                    Option.some.injEq]
                  rcases hc with h | h | h | h | h | h | h | h
                  all_goals try omega
                  simp only [isDigitCp, Bool.and_eq_true, decide_eq_true_eq] at h
                  omega
                rw [if_neg hhd]
                rw [ih.2.1 (x :: xs) (by simp) hszE hwf' fuel rest]
                norm_num
        | obj fs =>
            cases fs with
            | nil =>
                rw [show sizeJ (Json.obj []) + fuel = fuel + 1 from by
                  simp only [sizeJ, sizeF]; omega]
                exact parseVal_objNil fuel rest
            | cons f fs' =>
                obtain ⟨k, v⟩ := f
                have hwf' : wfJsonFields ((k, v) :: fs') = true := by
                  simpa only [wfJson] using hwf
                have hszF : sizeF ((k, v) :: fs') ≤ N := by
                  simp only [sizeJ] at hsz; omega
                rw [show sizeJ (Json.obj ((k, v) :: fs')) + fuel =
                    (sizeF ((k, v) :: fs') + fuel) + 1 from by
                  simp only [sizeJ]; omega]
                have hshape : dumps (Json.obj ((k, v) :: fs')) ++ rest =
                    0x7B :: (dumpsObj ((k, v) :: fs') ++ 0x7D :: rest) := by
                  show (0x7B :: dumpsObj ((k, v) :: fs') ++ [0x7D]) ++ rest = _
                  simp
                rw [hshape]
                simp only [parseVal]
                have hhd : ¬ ((dumpsObj ((k, v) :: fs') ++ 0x7D :: rest).head? =
                    some 0x7D) := by
                  cases fs' <;> simp [dumpsObj, dumpsStr]
                rw [if_neg hhd]
                rw [ih.2.2 ((k, v) :: fs') (by simp) hszF hwf' fuel rest]
                norm_num
      · -- parseElems
        intro l hne hsz hwf fuel rest
        cases l with
        | nil => exact absurd rfl hne
        | cons x xs =>
            simp only [wfJsonList, Bool.and_eq_true] at hwf
            have hszx : sizeJ x ≤ N := by simp only [sizeE] at hsz; omega
            rw [show sizeE (x :: xs) + fuel =
                (sizeJ x + (sizeE xs + fuel)) + 1 from by
              simp only [sizeE]; omega]
            cases xs with
            | nil =>
                have hshape : dumpsArr [x] ++ 0x5D :: rest =
                    dumps x ++ 0x5D :: rest := by simp [dumpsArr]
                rw [hshape]
                simp only [parseElems]
                rw [ih.1 x hszx hwf.1 (sizeE [] + fuel) (0x5D :: rest)
                  (by intro c hc; simp at hc; subst hc; rfl)]
                rfl
            | cons y ys =>
                have hshape : dumpsArr (x :: y :: ys) ++ 0x5D :: rest =
                    dumps x ++
                      (0x2C :: 0x20 :: (dumpsArr (y :: ys) ++ 0x5D :: rest)) := by
                  simp only [dumpsArr]
                  simp
                rw [hshape]
                simp only [parseElems]
                rw [ih.1 x hszx hwf.1 (sizeE (y :: ys) + fuel)
                  (0x2C :: 0x20 :: (dumpsArr (y :: ys) ++ 0x5D :: rest))
                  (by intro c hc; simp at hc; subst hc; rfl)]
                dsimp only
                simp only [List.head?_cons, List.tail_cons, reduceIte]
                have hszys : sizeE (y :: ys) ≤ N := by
                  simp only [sizeE] at hsz ⊢
                  have := sizeJ_pos x
                  omega
                have harith : sizeJ x + (sizeE (y :: ys) + fuel) =
                    sizeE (y :: ys) + (sizeJ x + fuel) := by omega
                rw [harith, ih.2.1 (y :: ys) (by simp) hszys hwf.2
                  (sizeJ x + fuel) rest]
                norm_num
      · -- parseFields
        intro fs hne hsz hwf fuel rest
        cases fs with
        | nil => exact absurd rfl hne
        | cons f fs' =>
            obtain ⟨k, v⟩ := f
            simp only [wfJsonFields, Bool.and_eq_true] at hwf
            have hszv : sizeJ v ≤ N := by simp only [sizeF] at hsz; omega
            rw [show sizeF ((k, v) :: fs') + fuel =
                (sizeJ v + (sizeF fs' + fuel)) + 1 from by
              simp only [sizeF]; omega]
            cases fs' with
            | nil =>
                have hshape : dumpsObj [(k, v)] ++ 0x7D :: rest =
                    0x22 :: (k.flatMap escChar ++
                      0x22 :: (0x3A :: 0x20 :: (dumps v ++ 0x7D :: rest))) := by
                  simp [dumpsObj, dumpsStr]
                rw [hshape]
                simp only [parseFields]
                rw [if_pos True.intro]
                simp only [parseStr]
                have hlen : k.length ≤ (k.flatMap escChar ++
                    0x22 :: (0x3A :: 0x20 :: (dumps v ++ 0x7D :: rest))).length := by
                  rw [List.length_append]
                  have := flatMap_escChar_len k
                  simp only [List.length_cons]
                  omega
                rw [strRT k _ _ hwf.1.1 hlen]
                dsimp only
                simp only [List.head?_cons, List.tail_cons, reduceIte]
                rw [ih.1 v hszv hwf.1.2 (sizeF [] + fuel) (0x7D :: rest)
                  (by intro c hc; simp at hc; subst hc; rfl)]
                dsimp only
                simp only [reduceIte]
            | cons g gs =>
                have hshape : dumpsObj ((k, v) :: g :: gs) ++ 0x7D :: rest =
                    0x22 :: (k.flatMap escChar ++
                      0x22 :: (0x3A :: 0x20 :: (dumps v ++
                        0x2C :: 0x20 :: (dumpsObj (g :: gs) ++ 0x7D :: rest)))) := by
                  simp [dumpsObj, dumpsStr]
                rw [hshape]
                simp only [parseFields]
                rw [if_pos True.intro]
                simp only [parseStr]
                have hlen : k.length ≤ (k.flatMap escChar ++
                    0x22 :: (0x3A :: 0x20 :: (dumps v ++
                      0x2C :: 0x20 :: (dumpsObj (g :: gs) ++
                        0x7D :: rest)))).length := by
                  rw [List.length_append]
                  have := flatMap_escChar_len k
                  simp only [List.length_cons]
                  omega
                rw [strRT k _ _ hwf.1.1 hlen]
                dsimp only
                simp only [List.head?_cons, List.tail_cons, reduceIte]
                rw [ih.1 v hszv hwf.1.2 (sizeF (g :: gs) + fuel)
                  (0x2C :: 0x20 :: (dumpsObj (g :: gs) ++ 0x7D :: rest))
                  (by intro c hc; simp at hc; subst hc; rfl)]
                dsimp only
                simp only [List.head?_cons, List.tail_cons, reduceIte]
                have hszgs : sizeF (g :: gs) ≤ N := by
                  obtain ⟨k2, v2⟩ := g
                  simp only [sizeF] at hsz ⊢
                  have := sizeJ_pos v
                  omega
                have harith : sizeJ v + (sizeF (g :: gs) + fuel) =
                    sizeF (g :: gs) + (sizeJ v + fuel) := by omega
                rw [harith, ih.2.2 (g :: gs) (by simp) hszgs hwf.2
                  (sizeJ v + fuel) rest]
                norm_num


/- The size measure is bounded by the serialized length. -/

theorem size_le_len : ∀ N : Nat,
    (∀ v, sizeJ v ≤ N → sizeJ v ≤ (dumps v).length) ∧
    (∀ l, l ≠ [] → sizeE l ≤ N → sizeE l ≤ (dumpsArr l).length + 1) ∧
    (∀ fs, fs ≠ [] → sizeF fs ≤ N → sizeF fs ≤ (dumpsObj fs).length + 1) := by
  intro N
  induction N with
  | zero =>
      refine ⟨?_, ?_, ?_⟩
      · intro v hsz
        exact absurd hsz (by have := sizeJ_pos v; omega)
      · intro l hne hsz
        cases l with
        | nil => exact absurd rfl hne
        | cons x xs => exact absurd hsz (by simp only [sizeE]; omega)
      · intro fs hne hsz
        cases fs with
        | nil => exact absurd rfl hne
        | cons f fs =>
            obtain ⟨k, v⟩ := f
            exact absurd hsz (by simp only [sizeF]; omega)
  | succ N ih =>
      refine ⟨?_, ?_, ?_⟩
      · intro v hsz
        cases v with
        | null =>
            show sizeJ Json.null ≤ (cps "null").length
            rw [show (cps "null").length = 4 from rfl]
            simp [sizeJ]
        | bool b =>
            cases b
            · show sizeJ (Json.bool false) ≤ (cps "false").length
              rw [show (cps "false").length = 5 from rfl]
              simp [sizeJ]
            · show sizeJ (Json.bool true) ≤ (cps "true").length
              rw [show (cps "true").length = 4 from rfl]
              simp [sizeJ]
        | num n =>
            have h1 : 1 ≤ (intDecCps n).length := by
              by_cases hn : n < 0
              · rw [intDecCps, if_pos hn]; simp
              · rw [intDecCps, if_neg hn]
                have := natDecCps_ne_nil n.toNat
                cases h : natDecCps n.toNat with
                | nil => exact absurd h this
                | cons a b => simp [h]
            simpa [sizeJ, dumps] using h1
        | str s =>
            show sizeJ (Json.str s) ≤ (dumpsStr s).length
            simp [sizeJ, dumpsStr]
        | arr l =>
            cases l with
            | nil => simp [sizeJ, sizeE, dumps, dumpsArr]
            | cons x xs =>
                have hE : sizeE (x :: xs) ≤ (dumpsArr (x :: xs)).length + 1 :=
                  ih.2.1 (x :: xs) (by simp) (by simp only [sizeJ] at hsz; omega)
                show sizeE (x :: xs) + 1 ≤ (0x5B :: dumpsArr (x :: xs) ++ [0x5D]).length
                simp only [List.length_cons, List.length_append,
                  List.length_singleton]
                omega
        | obj fs =>
            cases fs with
            | nil => simp [sizeJ, sizeF, dumps, dumpsObj]
            | cons f fs' =>
                obtain ⟨k, v⟩ := f
                have hF : sizeF ((k, v) :: fs') ≤
                    (dumpsObj ((k, v) :: fs')).length + 1 :=
                  ih.2.2 ((k, v) :: fs') (by simp)
                    (by simp only [sizeJ] at hsz; omega)
                show sizeF ((k, v) :: fs') + 1 ≤
                  (0x7B :: dumpsObj ((k, v) :: fs') ++ [0x7D]).length
                simp only [List.length_cons, List.length_append,
                  List.length_singleton]
                omega
      · intro l hne hsz
        cases l with
        | nil => exact absurd rfl hne
        | cons x xs =>
            have hx : sizeJ x ≤ (dumps x).length :=
              ih.1 x (by simp only [sizeE] at hsz; omega)
            cases xs with
            | nil =>
                show sizeJ x + sizeE [] + 1 ≤ (dumpsArr [x]).length + 1
                simp only [sizeE, dumpsArr]
                omega
            | cons y ys =>
                have hys : sizeE (y :: ys) ≤ (dumpsArr (y :: ys)).length + 1 :=
                  ih.2.1 (y :: ys) (by simp)
                    (by simp only [sizeE] at hsz ⊢; have := sizeJ_pos x; omega)
                show sizeJ x + sizeE (y :: ys) + 1 ≤
                  (dumpsArr (x :: y :: ys)).length + 1
                have hshape : dumpsArr (x :: y :: ys) =
                    dumps x ++ [0x2C, 0x20] ++ dumpsArr (y :: ys) := by
                  simp [dumpsArr]
                rw [hshape]
                simp only [List.length_append]
                simp at hys ⊢
                omega
      · intro fs hne hsz
        cases fs with
        | nil => exact absurd rfl hne
        | cons f fs' =>
            obtain ⟨k, v⟩ := f
            have hv : sizeJ v ≤ (dumps v).length :=
              ih.1 v (by simp only [sizeF] at hsz; omega)
            cases fs' with
            | nil =>
                show sizeJ v + sizeF [] + 1 ≤ (dumpsObj [(k, v)]).length + 1
                simp only [sizeF, dumpsObj]
                simp only [List.length_append]
                omega
            | cons g gs =>
                have hgs : sizeF (g :: gs) ≤ (dumpsObj (g :: gs)).length + 1 :=
                  ih.2.2 (g :: gs) (by simp)
                    (by simp only [sizeF] at hsz ⊢; have := sizeJ_pos v; omega)
                show sizeJ v + sizeF (g :: gs) + 1 ≤
                  (dumpsObj ((k, v) :: g :: gs)).length + 1
                have hshape : dumpsObj ((k, v) :: g :: gs) =
                    dumpsStr k ++ [0x3A, 0x20] ++ dumps v ++ [0x2C, 0x20] ++
                      dumpsObj (g :: gs) := by
                  simp [dumpsObj]
                rw [hshape]
                simp only [List.length_append, List.length_cons,
                  List.length_nil]
                omega


/- Everything `dumps` emits is ASCII. -/

theorem hexDig_lt (d : Nat) (h : d < 16) : hexDig d < 0x80 := by
  rw [hexDig]
  split_ifs <;> omega

theorem escUHex_ascii (n : Nat) : ∀ x ∈ escUHex n, x < 0x80 := by
  intro x hx
  simp only [escUHex, List.mem_cons, List.not_mem_nil, or_false] at hx
  rcases hx with h | h | h | h | h | h <;> subst h
  · omega
  · omega
  · exact hexDig_lt _ (Nat.mod_lt _ (by omega))
  · exact hexDig_lt _ (Nat.mod_lt _ (by omega))
  · exact hexDig_lt _ (Nat.mod_lt _ (by omega))
  · exact hexDig_lt _ (Nat.mod_lt _ (by omega))

theorem escChar_ascii (c : Nat) : ∀ x ∈ escChar c, x < 0x80 := by
  rw [escChar]
  by_cases h1 : c = 0x22
  · rw [if_pos h1]; intro x hx; simp at hx; omega
  rw [if_neg h1]
  by_cases h2 : c = 0x5C
  · rw [if_pos h2]; intro x hx; simp at hx; omega
  rw [if_neg h2]
  by_cases h3 : c = 0x0A
  · rw [if_pos h3]; intro x hx; simp at hx; omega
  rw [if_neg h3]
  by_cases h4 : c = 0x0D
  · rw [if_pos h4]; intro x hx; simp at hx; omega
  rw [if_neg h4]
  by_cases h5 : c = 0x09
  · rw [if_pos h5]; intro x hx; simp at hx; omega
  rw [if_neg h5]
  by_cases h6 : c = 0x08
  · rw [if_pos h6]; intro x hx; simp at hx; omega
  rw [if_neg h6]
  by_cases h7 : c = 0x0C
  · rw [if_pos h7]; intro x hx; simp at hx; omega
  rw [if_neg h7]
  by_cases h8 : c < 0x20
  · rw [if_pos h8]; exact escUHex_ascii c
  rw [if_neg h8]
  by_cases h9 : c < 0x7F
  · rw [if_pos h9]; intro x hx; simp at hx; omega
  rw [if_neg h9]
  by_cases h10 : c < 0x10000
  · rw [if_pos h10]; exact escUHex_ascii c
  rw [if_neg h10]
  intro x hx
  rw [List.mem_append] at hx
  rcases hx with h | h
  · exact escUHex_ascii _ x h
  · exact escUHex_ascii _ x h

theorem intDecCps_ascii (n : Int) : ∀ c ∈ intDecCps n, c < 0x80 := by
  intro c hc
  have hdig : ∀ x ∈ natDecCps n.natAbs, x < 0x80 := by
    intro x hx
    have := natDecCps_digits n.natAbs
    rw [List.all_eq_true] at this
    have := this x hx
    simp only [isDigitCp, Bool.and_eq_true, decide_eq_true_eq] at this
    omega
  have hdig2 : ∀ x ∈ natDecCps n.toNat, x < 0x80 := by
    intro x hx
    have := natDecCps_digits n.toNat
    rw [List.all_eq_true] at this
    have := this x hx
    simp only [isDigitCp, Bool.and_eq_true, decide_eq_true_eq] at this
    omega
  rw [intDecCps] at hc
  by_cases hn : n < 0
  · rw [if_pos hn] at hc
    rcases List.mem_cons.mp hc with h | h
    · omega
    · exact hdig c h
  · rw [if_neg hn] at hc
    exact hdig2 c hc

theorem dumpsStr_ascii (s : List Nat) : ∀ c ∈ dumpsStr s, c < 0x80 := by
  intro c hc
  simp only [dumpsStr] at hc
  rcases List.mem_cons.mp hc with h | h
  · omega
  rcases List.mem_append.mp h with h2 | h2
  · obtain ⟨x, _, hm⟩ := List.mem_flatMap.mp h2
    exact escChar_ascii x c hm
  · simp only [List.mem_singleton] at h2
    omega

theorem dumps_ascii_all : ∀ N : Nat,
    (∀ v, sizeJ v ≤ N → ∀ c ∈ dumps v, c < 0x80) ∧
    (∀ l, sizeE l ≤ N → ∀ c ∈ dumpsArr l, c < 0x80) ∧
    (∀ fs, sizeF fs ≤ N → ∀ c ∈ dumpsObj fs, c < 0x80) := by
  intro N
  induction N with
  | zero =>
      refine ⟨?_, ?_, ?_⟩
      · intro v hsz
        exact absurd hsz (by have := sizeJ_pos v; omega)
      · intro l hsz c hc
        cases l with
        | nil => simp [dumpsArr] at hc
        | cons x xs => exact absurd hsz (by simp only [sizeE]; omega)
      · intro fs hsz c hc
        cases fs with
        | nil => simp [dumpsObj] at hc
        | cons f fs =>
            obtain ⟨k, v⟩ := f
            exact absurd hsz (by simp only [sizeF]; omega)
  | succ N ih =>
      refine ⟨?_, ?_, ?_⟩
      · intro v hsz c hc
        cases v with
        | null =>
            rw [show dumps Json.null = [0x6E, 0x75, 0x6C, 0x6C] from rfl] at hc
            simp at hc
            omega
        | bool b =>
            cases b
            · rw [show dumps (Json.bool false) =
                  [0x66, 0x61, 0x6C, 0x73, 0x65] from rfl] at hc
              simp at hc
              omega
            · rw [show dumps (Json.bool true) =
                  [0x74, 0x72, 0x75, 0x65] from rfl] at hc
              simp at hc
              omega
        | num n => exact intDecCps_ascii n c hc
        | str s => exact dumpsStr_ascii s c hc
        | arr l =>
            have hsub : ∀ x ∈ dumpsArr l, x < 0x80 :=
              ih.2.1 l (by simp only [sizeJ] at hsz; omega)
            rw [show dumps (Json.arr l) = 0x5B :: (dumpsArr l ++ [0x5D])
              from rfl] at hc
            rcases List.mem_cons.mp hc with h | h
            · omega
            rcases List.mem_append.mp h with h2 | h2
            · exact hsub c h2
            · simp only [List.mem_singleton] at h2
              omega
        | obj fs =>
            have hsub : ∀ x ∈ dumpsObj fs, x < 0x80 :=
              ih.2.2 fs (by simp only [sizeJ] at hsz; omega)
            rw [show dumps (Json.obj fs) = 0x7B :: (dumpsObj fs ++ [0x7D])
              from rfl] at hc
            rcases List.mem_cons.mp hc with h | h
            · omega
            rcases List.mem_append.mp h with h2 | h2
            · exact hsub c h2
            · simp only [List.mem_singleton] at h2
              omega
      · intro l hsz c hc
        cases l with
        | nil => simp [dumpsArr] at hc
        | cons x xs =>
            have hx : ∀ y ∈ dumps x, y < 0x80 :=
              ih.1 x (by simp only [sizeE] at hsz; omega)
            cases xs with
            | nil =>
                rw [show dumpsArr [x] = dumps x from rfl] at hc
                exact hx c hc
            | cons y ys =>
                have hys : ∀ z ∈ dumpsArr (y :: ys), z < 0x80 :=
                  ih.2.1 (y :: ys)
                    (by simp only [sizeE] at hsz ⊢; have := sizeJ_pos x; omega)
                rw [show dumpsArr (x :: y :: ys) =
                    dumps x ++ [0x2C, 0x20] ++ dumpsArr (y :: ys)
                  from by simp [dumpsArr]] at hc
                rcases List.mem_append.mp hc with h | h
                · rcases List.mem_append.mp h with h2 | h2
                  · exact hx c h2
                  · simp only [List.mem_cons, List.not_mem_nil,
                      or_false] at h2
                    omega
                · exact hys c h
      · intro fs hsz c hc
        cases fs with
        | nil => simp [dumpsObj] at hc
        | cons f fs' =>
            obtain ⟨k, v⟩ := f
            have hv : ∀ y ∈ dumps v, y < 0x80 :=
              ih.1 v (by simp only [sizeF] at hsz; omega)
            cases fs' with
            | nil =>
                rw [show dumpsObj [(k, v)] =
                    dumpsStr k ++ [0x3A, 0x20] ++ dumps v
                  from by simp [dumpsObj]] at hc
                rcases List.mem_append.mp hc with h | h
                · rcases List.mem_append.mp h with h2 | h2
                  · exact dumpsStr_ascii k c h2
                  · simp only [List.mem_cons, List.not_mem_nil,
                      or_false] at h2
                    omega
                · exact hv c h
            | cons g gs =>
                have hgs : ∀ z ∈ dumpsObj (g :: gs), z < 0x80 :=
                  ih.2.2 (g :: gs)
                    (by obtain ⟨k2, v2⟩ := g
                        simp only [sizeF] at hsz ⊢
                        have := sizeJ_pos v; omega)
                rw [show dumpsObj ((k, v) :: g :: gs) =
                    dumpsStr k ++ [0x3A, 0x20] ++ dumps v ++ [0x2C, 0x20] ++
                      dumpsObj (g :: gs)
                  from by simp [dumpsObj]] at hc
                rcases List.mem_append.mp hc with h | h
                · rcases List.mem_append.mp h with h2 | h2
                  · rcases List.mem_append.mp h2 with h3 | h3
                    · rcases List.mem_append.mp h3 with h4 | h4
                      · exact dumpsStr_ascii k c h4
                      · simp only [List.mem_cons, List.not_mem_nil,
                          or_false] at h4
                        omega
                    · exact hv c h3
                  · simp only [List.mem_cons, List.not_mem_nil,
                      or_false] at h2
                    omega
                · exact hgs c h

theorem dumps_ascii (v : Json) : ∀ c ∈ dumps v, c < 0x80 :=
  (dumps_ascii_all (sizeJ v)).1 v le_rfl


/- ASCII byte-level framing. -/

theorem utf8EncodeChar_ascii (c : Nat) (h : c < 0x80) :
    utf8EncodeChar c = some [c] := by
  rw [utf8EncodeChar, if_pos h]

theorem mapM_utf8_ascii (s : List Nat) (h : ∀ c ∈ s, c < 0x80) :
    s.mapM utf8EncodeChar = some (s.map (fun c => [c])) := by
  induction s with
  | nil => rfl
  | cons c t ih =>
      rw [List.mapM_cons, utf8EncodeChar_ascii c (h c (by simp)),
        ih (fun x hx => h x (by simp [hx]))]
      rfl

theorem flatten_singletons (s : List Nat) :
    (s.map (fun c => [c])).flatten = s := by
  induction s with
  | nil => rfl
  | cons c t ih => simp [ih]

theorem utf8Encode_ascii (s : List Nat) (h : ∀ c ∈ s, c < 0x80) :
    utf8Encode s = some s := by
  rw [utf8Encode, mapM_utf8_ascii s h]
  simp [flatten_singletons]

theorem utf8DecodeAux_ascii : ∀ fuel (s : List Nat), s.length < fuel →
    (∀ c ∈ s, c < 0x80) → utf8DecodeAux fuel s = some s := by
  intro fuel
  induction fuel with
  | zero => exact fun s h _ => absurd h (by omega)
  | succ f ih =>
      intro s hlen hc
      cases s with
      | nil => rfl
      | cons b t =>
          have hb : b < 0x80 := hc b (by simp)
          simp only [utf8DecodeAux]
          rw [if_pos hb, ih t (by simp only [List.length_cons] at hlen; omega)
            (fun x hx => hc x (by simp [hx]))]
          rfl

theorem utf8Decode_ascii (s : List Nat) (h : ∀ c ∈ s, c < 0x80) :
    utf8Decode s = some s :=
  utf8DecodeAux_ascii (s.length + 1) s (by omega) h

theorem readLine_append (l r : List Nat) (h : ∀ c ∈ l, c ≠ 0x0A) :
    readLine (l ++ 0x0A :: r) = (l ++ [0x0A], r) := by
  induction l with
  | nil => simp [readLine]
  | cons c t ih =>
      rw [List.cons_append]
      simp only [readLine]
      rw [if_neg (h c (by simp)), ih (fun x hx => h x (by simp [hx]))]
      simp

theorem pyStrip_frame (a : List Nat) (hne : a ≠ [])
    (hh : ∀ c, a.head? = some c → isWspCp c = false)
    (hl : ∀ c, a.getLast? = some c → isWspCp c = false) :
    pyStrip (a ++ [0x0D, 0x0A]) = a := by
  rw [pyStrip]
  rw [dropWhile_eq_self_of_head isWspCp (a ++ [0x0D, 0x0A]) (by
    intro c hc
    obtain ⟨a0, t, rfl⟩ := List.exists_cons_of_ne_nil hne
    rw [List.cons_append, List.head?_cons] at hc
    exact hh c (by rw [List.head?_cons, hc]))]
  have hrev : (a ++ [0x0D, 0x0A]).reverse = 0x0A :: 0x0D :: a.reverse := by
    simp
  rw [hrev, List.dropWhile_cons_of_pos (by rfl),
    List.dropWhile_cons_of_pos (by rfl),
    dropWhile_eq_self_of_head isWspCp a.reverse (by
      intro c hc
      rw [List.head?_reverse] at hc
      exact hl c hc),
    List.reverse_reverse]

theorem readUntilCRLF_imm (msg : List Nat) :
    readUntilCRLF (0x0D :: 0x0A :: msg) = some ([0x0D, 0x0A], msg) := rfl


theorem dumps_head_notWS (m : Json) :
    ∀ c, (dumps m).head? = some c → jsonWS c = false := by
  intro c hc
  obtain ⟨c0, t, hct, hclass⟩ := dumps_head m
  rw [hct, List.head?_cons, Option.some.injEq] at hc
  subst hc
  have hc4 : c0 ≠ 0x20 ∧ c0 ≠ 0x09 ∧ c0 ≠ 0x0A ∧ c0 ≠ 0x0D := by
    rcases hclass with h | h | h | h | h | h | h | h
    all_goals try (refine ⟨?_, ?_, ?_, ?_⟩ <;> omega)
    simp only [isDigitCp, Bool.and_eq_true, decide_eq_true_eq] at h
    refine ⟨?_, ?_, ?_, ?_⟩ <;> omega
  simp only [jsonWS, Bool.or_eq_false_iff, decide_eq_false_iff_not]
  exact ⟨⟨⟨hc4.1, hc4.2.1⟩, hc4.2.2.1⟩, hc4.2.2.2⟩

theorem jsonLoads_dumps (m : Json) (hwf : wfJson m = true) :
    jsonLoads (dumps m) = some m := by
  rw [jsonLoads]
  rw [dropWhile_eq_self_of_head jsonWS (dumps m) (dumps_head_notWS m)]
  have hsz : sizeJ m ≤ (dumps m).length := (size_le_len (sizeJ m)).1 m le_rfl
  have hp := (parseRT_all (sizeJ m)).1 m le_rfl hwf
    (4 * (dumps m).length + 4 - sizeJ m) []
    (by intro c hc; simp at hc)
  rw [List.append_nil] at hp
  rw [show 4 * (dumps m).length + 4 =
    sizeJ m + (4 * (dumps m).length + 4 - sizeJ m) from by omega]
  rw [hp]
  rfl


theorem natDecCps_ascii (L : Nat) : ∀ c ∈ natDecCps L, c < 0x80 := by
  intro c hc
  have h := natDecCps_digits L
  rw [List.all_eq_true] at h
  have := h c hc
  simp only [isDigitCp, Bool.and_eq_true, decide_eq_true_eq] at this
  omega

theorem C1_header_ascii (m : Json) :
    ∀ c ∈ cps "Content-Length: " ++ natDecCps (dumps m).length ++
      cps "\r\n\r\n" ++ dumps m, c < 0x80 := by
  intro c hc
  rcases List.mem_append.mp hc with h | h
  · rcases List.mem_append.mp h with h2 | h2
    · rcases List.mem_append.mp h2 with h3 | h3
      · fin_cases h3 <;> decide
      · exact natDecCps_ascii _ c h3
    · rw [show cps "\r\n\r\n" = [0x0D, 0x0A, 0x0D, 0x0A] from rfl] at h2
      fin_cases h2 <;> decide
  · exact dumps_ascii m c h


/-- C1: wire-codec round trip.  For every well-formed JSON-RPC message
`m` (its strings made of Unicode scalar values, as any Python string that
reached the wire must be), encoding with `write_data` — which emits
`Content-Length: <n>` where `n = len(message)` is the serialized body's
byte length (equal to its character count because `json.dumps` with
`ensure_ascii` emits pure ASCII), then `\r\n\r\n` and the body in one
buffered write — and decoding the emitted bytes with `read_request`
yields `m` again: `decode(encode(m)) = m`, including messages whose JSON
serialization contains non-ASCII characters (escaped as `\uXXXX`). -/
theorem C1_wire_roundtrip (m : Json) (hwf : wfJson m = true) :
    (write_data (dumps m)).bind read_request = some m := by
  rw [write_data, utf8Encode_ascii _ (C1_header_ascii m)]
  rw [Option.some_bind]
  rw [read_request]
  rw [show cps "Content-Length: " ++ natDecCps (dumps m).length ++
      cps "\r\n\r\n" ++ dumps m =
      ((cps "Content-Length: " ++ natDecCps (dumps m).length ++ [0x0D]) ++
        (0x0A :: (0x0D :: 0x0A :: dumps m))) from by
    rw [show cps "\r\n\r\n" = [0x0D, 0x0A, 0x0D, 0x0A] from rfl]
    simp]
  rw [readLine_append _ _ (by
    intro c hc
    rcases List.mem_append.mp hc with h | h
    · rcases List.mem_append.mp h with h2 | h2
      · fin_cases h2 <;> decide
      · have := natDecCps_ascii (dumps m).length c h2
        have hd := natDecCps_digits (dumps m).length
        rw [List.all_eq_true] at hd
        have := hd c h2
        simp only [isDigitCp, Bool.and_eq_true, decide_eq_true_eq] at this
        omega
    · simp only [List.mem_singleton] at h
      omega)]
  dsimp only
  have hne : (cps "Content-Length: " ++ natDecCps (dumps m).length ++
      [0x0D] ++ [0x0A]).isEmpty = false := by simp
  rw [hne]
  simp only [Bool.false_eq_true, if_false]
  rw [utf8Decode_ascii _ (by
    intro c hc
    rcases List.mem_append.mp hc with h | h
    · rcases List.mem_append.mp h with h2 | h2
      · rcases List.mem_append.mp h2 with h3 | h3
        · fin_cases h3 <;> decide
        · exact natDecCps_ascii _ c h3
      · simp only [List.mem_singleton] at h2
        omega
    · simp only [List.mem_singleton] at h
      omega)]
  simp only [Option.bind_eq_bind, Option.some_bind]
  rw [show cps "Content-Length: " ++ natDecCps (dumps m).length ++
      [0x0D] ++ [0x0A] =
      (cps "Content-Length: " ++ natDecCps (dumps m).length) ++ [0x0D, 0x0A]
    from by simp]
  rw [pyStrip_frame _
    (by
      rw [show cps "Content-Length: " =
        0x43 :: cps "ontent-Length: " from rfl]
      simp)
    (by
      intro c hc
      rw [show cps "Content-Length: " ++ natDecCps (dumps m).length =
        0x43 :: (cps "ontent-Length: " ++ natDecCps (dumps m).length)
        from by rfl] at hc
      rw [List.head?_cons, Option.some.injEq] at hc
      subst hc
      rfl)
    (by
      intro c hc
      rw [List.getLast?_append] at hc
      obtain ⟨d, hd⟩ : ∃ d, (natDecCps (dumps m).length).getLast? = some d := by
        cases h : (natDecCps (dumps m).length).getLast? with
        | some d => exact ⟨d, rfl⟩
        | none =>
            exact absurd (by simpa using h) (natDecCps_ne_nil (dumps m).length)
      rw [hd] at hc
      simp only [Option.or] at hc
      rw [Option.some.injEq] at hc
      have hdig := natDecCps_digits (dumps m).length
      rw [List.all_eq_true] at hdig
      have h2 := hdig d (List.mem_of_getLast?_eq_some hd)
      simp only [isDigitCp, Bool.and_eq_true, decide_eq_true_eq] at h2
      rw [← hc]
      simp only [isWspCp, Bool.or_eq_false_iff, decide_eq_false_iff_not]
      refine ⟨⟨⟨⟨⟨?_, ?_⟩, ?_⟩, ?_⟩, ?_⟩, ?_⟩ <;> omega)]
  rw [show cps "Content-Length: " ++ natDecCps (dumps m).length =
      cps "Content-Length:" ++ 0x20 :: natDecCps (dumps m).length from by
    rw [show cps "Content-Length: " = cps "Content-Length:" ++ [0x20]
      from rfl]
    simp]
  rw [splitOnCp_single 0x20 _ _ (by decide) (by
    have h := natDecCps_digits (dumps m).length
    rw [List.all_eq_true] at h ⊢
    intro c hc
    have := h c hc
    simp only [isDigitCp, Bool.and_eq_true, decide_eq_true_eq] at this
    simp only [Bool.not_eq_eq_eq_not, Bool.not_true, beq_eq_false_iff_ne,
      ne_eq]
    omega)]
  dsimp only
  rw [readUntilCRLF_imm]
  simp only [Option.some_bind]
  rw [if_pos True.intro]
  rw [pyParseIntStr_digits _ (natDecCps_digits _) (natDecCps_ne_nil _),
    natDecCps_val]
  simp only [Option.some_bind]
  rw [if_neg (by omega : ¬ (((dumps m).length : Int) < 0))]
  rw [Int.toNat_natCast]
  rw [if_neg (by omega : ¬ ((dumps m).length < (dumps m).length))]
  rw [List.take_length]
  simp only [Option.some_bind]
  rw [utf8Decode_ascii _ (dumps_ascii m)]
  simp only [Option.some_bind]
  exact jsonLoads_dumps m hwf

/-- A concrete JSON-RPC response whose serialization exercises short
escapes, `\uXXXX` escapes, an astral character (surrogate pair), and a
negative number. -/
def wireMsg : Json :=
  Json.obj [(cps "jsonrpc", Json.str (cps "2.0")),
            (cps "id", Json.num 1),
            (cps "result", Json.str [0xE9, 0x1D11E, 0x22, 0x0A, 0x7]),
            (cps "delta", Json.num (-12))]

theorem C1_wire_roundtrip_witness :
    wfJson wireMsg = true ∧
    (write_data (dumps wireMsg)).bind read_request = some wireMsg :=
  ⟨rfl, C1_wire_roundtrip wireMsg rfl⟩

end YaraLS
